import Mathlib

/-!
# cdecl: a C declaration to English translator (chap03/src)

A shallow embedding of `cdecl.c` and `token_stack.c`.

* A word (one `argv` entry) is the list of its characters, without the
  terminating NUL.  The argument vector `chunks` is a list of words; the
  `NULL` entry that ends `argv` is the position `chunks.length`, so that
  reading `*curr` is `chunks[curr]?` and `none` stands for `NULL`.
* The global cursor `curr` is an index into `chunks`.
* The token stack is the list of the tokens it holds, top first; its `size`
  field is the length of that list.
* Everything written with `printf` is appended to `stdout`; `exit` flushes it.
* Loops that are not bounded by the structure of their argument take a `fuel`
  argument and answer `none` when it runs out.
-/

namespace Cdecl

/-! ## token_stack.h -/

def MAXTOKENLEN : Nat := 128

def MAXTOKENS : Nat := 256

inductive token_type where
  | TOKEN_TYPE
  | TOKEN_QUALIFIER
  | TOKEN_IDENTIFIER
  | TOKEN_ARRAY_BEGIN
  | TOKEN_ARRAY_END
  | TOKEN_FUNC_BEGIN
  | TOKEN_FUNC_END
  | TOKEN_UNKNOWN
  deriving DecidableEq, Repr

open token_type

structure token where
  type : token_type
  string : List Char
  deriving DecidableEq, Repr

/-- The stack of tokens, top first; `size` is its length. -/
abbrev token_stack := List token

/-! ## libc -/

/-- The libc `strncmp` on NUL-free strings: compares at most `n` characters as
unsigned bytes; negative, zero or positive. -/
def strncmp : List Char → List Char → Nat → Int
  | _, _, 0 => 0
  | [], [], _ + 1 => 0
  | [], _ :: _, _ + 1 => -1
  | _ :: _, [], _ + 1 => 1
  | a :: as, b :: bs, n + 1 =>
    if a.toNat < b.toNat then -1
    else if b.toNat < a.toNat then 1
    else strncmp as bs n

/-- The libc `isdigit` in the C locale. -/
def isdigit (c : Char) : Bool := c.isDigit

/-- The libc `isalnum` in the C locale. -/
def isalnum (c : Char) : Bool := c.isAlphanum

def EXIT_SUCCESS : Int := 0

def EXIT_FAILURE : Int := 1

/-! ## token_stack.c -/

/-- The stack after `stack_init`: empty (allocation is taken to succeed). -/
def stack_init : token_stack := []

/-- The function `stack_push`: the status and the stack afterwards. The push is refused
when the stack holds `MAXTOKENLEN` tokens. -/
def stack_push (stack : token_stack) (el : token) : Int × token_stack :=
  if stack.length = MAXTOKENLEN then (-1, stack)
  else (0, el :: stack)

/-- The function `stack_pop`: the status, the stack afterwards and the contents of `*el`
afterwards. The stack pointer is the one `stack_init` returned, never `NULL`. -/
def stack_pop (stack : token_stack) (el : token) : Int × token_stack × token :=
  match stack with
  | [] => (-1, [], el)
  | top :: rest => (0, rest, top)

/-- The function `stack_pop` with its two pointer arguments as declared: `stack` and `el`
may each be `NULL` (`none`). The call fails on an absent or empty stack; otherwise the
size goes down by one and the top token is copied to `*el` when `el` is present. -/
def stack_pop_ptr (stack : Option token_stack) (el : Option token) :
    Int × Option token_stack × Option token :=
  match stack with
  | none => (-1, none, el)
  | some [] => (-1, some [], el)
  | some (top :: rest) => (0, some rest, el.map (fun _ => top))

/-! ## cdecl.c -/

/-- How the process ended: exit status and what was written to the two
streams. -/
structure Outcome where
  status : Int
  stdout : List Char
  stderr : List Char
  deriving DecidableEq, Repr

def PROGRAM_NAME : List Char := "cdecl".toList

/-- The function `helpAndLeave`: the usage line goes to `stderr`, or to `stdout` when the
status is `EXIT_SUCCESS`. -/
def helpAndLeave (status : Int) (stdout : List Char) : Outcome :=
  let line := "Usage: ".toList ++ PROGRAM_NAME ++ " <declaration>\n".toList
  if status = EXIT_SUCCESS then ⟨status, stdout ++ line, []⟩
  else ⟨status, stdout, line⟩

/-- The text libc gives for `ENOMEM`. -/
def strerror_ENOMEM : List Char := "Cannot allocate memory".toList

/-- The function `pexit` after a failed `stack_push` (`errno` is `ENOMEM`). -/
def pexit (fCall : List Char) (stdout : List Char) : Outcome :=
  ⟨EXIT_FAILURE, stdout, fCall ++ ": ".toList ++ strerror_ENOMEM ++ "\n".toList⟩

/-- The function `fatal`: the formatted message `msg` on `stderr`, then `EXIT_FAILURE`. -/
def fatal (msg : List Char) (stdout : List Char) : Outcome :=
  ⟨EXIT_FAILURE, stdout, PROGRAM_NAME ++ ": ".toList ++ msg ++ "\n".toList⟩

/-- The function `str_is_any`: whether `str` matches one of the variadic arguments. -/
def str_is_any (str : List Char) (size : Nat) (args : List (List Char)) : Bool :=
  args.any (fun p => strncmp str p size = 0)

def valid_identifier (str : List Char) : Bool :=
  if (match str with | [] => false | c :: _ => isdigit c) then false
  else str.all (fun c => c = '_' || isalnum c)

def classify_string (str : Option (List Char)) : token_type :=
  match str with
  | none => TOKEN_UNKNOWN
  | some str =>
    if strncmp str "(".toList MAXTOKENLEN = 0 then TOKEN_FUNC_BEGIN
    else if strncmp str ")".toList MAXTOKENLEN = 0 then TOKEN_FUNC_END
    else if strncmp str "[".toList MAXTOKENLEN = 0 then TOKEN_ARRAY_BEGIN
    else if strncmp str "]".toList MAXTOKENLEN = 0 then TOKEN_ARRAY_END
    else if str_is_any str MAXTOKENLEN
        ["const".toList, "unsigned".toList, "volatile".toList, "*".toList] then
      TOKEN_QUALIFIER
    else if str_is_any str MAXTOKENLEN
        ["int".toList, "long".toList, "char".toList, "float".toList,
         "double".toList, "void".toList] then
      TOKEN_TYPE
    else if valid_identifier str then TOKEN_IDENTIFIER
    else TOKEN_UNKNOWN

/-- The globals and streams a parse works on. -/
structure State where
  curr : Nat
  stack : token_stack
  stdout : List Char
  deriving DecidableEq, Repr

/-- What a call that may end the process did: it returned a status, or the
process exited inside it. -/
inductive Call where
  | returned (status : Int) (s : State)
  | exited (o : Outcome)
  deriving DecidableEq, Repr

def find_identifier : Nat → List (List Char) → State → Option Call
  | 0, _, _ => none
  | fuel + 1, chunks, s =>
    match chunks[s.curr]? with
    | none => some (.returned (-1) s)
    | some w =>
      match classify_string (some w) with
      | TOKEN_IDENTIFIER =>
        some (.returned 0 { s with stdout := s.stdout ++ w ++ " is a ".toList })
      | TOKEN_UNKNOWN =>
        some (.exited (fatal ("internal error: unkown token type for ".toList ++ w) s.stdout))
      | cls =>
        match stack_push s.stack { type := cls, string := w.take (MAXTOKENLEN - 1) } with
        | (r, stack) =>
          if r = -1 then some (.exited (pexit "stack_push".toList s.stdout))
          else find_identifier fuel chunks { s with stack := stack, curr := s.curr + 1 }

def handle_array (chunks : List (List Char)) (s : State) : Int × State :=
  match chunks[s.curr + 1]? with
  | none => (-1, { s with curr := s.curr + 1 })
  | some size =>
    if classify_string (some size) = TOKEN_ARRAY_END then
      (0, { s with curr := s.curr + 1, stdout := s.stdout ++ "array [] of ".toList })
    else if !(size.all isdigit) then (-1, { s with curr := s.curr + 1 })
    else if classify_string chunks[s.curr + 2]? ≠ TOKEN_ARRAY_END then
      (-1, { s with curr := s.curr + 2 })
    else
      (0, { s with curr := s.curr + 3,
                   stdout := s.stdout ++ "array [".toList ++ size ++ "] of ".toList })

def handle_function : Nat → List (List Char) → State → Option (Int × State)
  | 0, _, _ => none
  | fuel + 1, chunks, s =>
    if classify_string chunks[s.curr + 1]? = TOKEN_FUNC_END then
      some (0, { s with curr := s.curr + 2,
                        stdout := s.stdout ++ "a function returning ".toList })
    else if classify_string chunks[s.curr + 1]? = TOKEN_UNKNOWN then
      some (-1, { s with curr := s.curr + 1 })
    else handle_function fuel chunks { s with curr := s.curr + 1 }

/-- The `while` loop of `print_pointers`, entered with the popped token `t`. -/
def print_pointers_loop : Nat → State → token → Option State
  | 0, _, _ => none
  | fuel + 1, s, t =>
    if strncmp t.string "*".toList MAXTOKENLEN = 0 then
      match stack_pop s.stack t with
      | (r, stack, t) =>
        if r = -1 then some { s with stdout := s.stdout ++ "pointer to ".toList }
        else
          print_pointers_loop fuel
            { s with stack := stack, stdout := s.stdout ++ "pointer to ".toList } t
    else some { s with stack := (stack_push s.stack t).2 }

def print_pointers (fuel : Nat) (s : State) (t : token) : Option State :=
  match stack_pop s.stack t with
  | (r, stack, t) =>
    if r = -1 then some s
    else print_pointers_loop fuel { s with stack := stack } t

def print_token (t : token) (stdout : List Char) : List Char :=
  if t.type = TOKEN_QUALIFIER then
    if strncmp t.string "const".toList MAXTOKENLEN = 0 then stdout ++ "read-only ".toList
    else if strncmp t.string "*".toList MAXTOKENLEN = 0 then stdout ++ "pointer to ".toList
    else stdout
  else stdout ++ t.string ++ " ".toList

/-- A local `struct token` before anything is stored in it. -/
def token_uninit : token := { type := TOKEN_TYPE, string := [] }

mutual

def parse_declarator : Nat → List (List Char) → State → Option (Int × State)
  | 0, _, _ => none
  | fuel + 1, chunks, s =>
    match (if classify_string chunks[s.curr + 1]? = TOKEN_ARRAY_BEGIN then
             handle_array chunks { s with curr := s.curr + 1 }
           else (0, { s with curr := s.curr + 1 })) with
    | (ra, s) =>
      if ra = -1 then some (-1, s)
      else
        match (if classify_string chunks[s.curr]? = TOKEN_FUNC_BEGIN then
                 handle_function fuel chunks s
               else some (0, s)) with
        | none => none
        | some (rf, s) =>
          if rf = -1 then some (-1, s)
          else
            match print_pointers fuel s token_uninit with
            | none => none
            | some s => parse_declarator_loop fuel chunks s token_uninit

/-- The `while (stack_pop(stack, &t) != -1)` loop of `parse_declarator`. -/
def parse_declarator_loop : Nat → List (List Char) → State → token → Option (Int × State)
  | 0, _, _, _ => none
  | fuel + 1, chunks, s, t =>
    match stack_pop s.stack t with
    | (r, stack, t) =>
      if r = -1 then some (0, s)
      else if strncmp t.string "(".toList MAXTOKENLEN = 0 then
        if (match chunks[s.curr]? with
            | none => true
            | some w => strncmp w ")".toList MAXTOKENLEN ≠ 0) then
          some (-1, { s with stack := stack })
        else
          match parse_declarator fuel chunks { s with stack := stack } with
          | none => none
          | some (_, s) => parse_declarator_loop fuel chunks s t
      else
        parse_declarator_loop fuel chunks
          { s with stack := stack, stdout := print_token t s.stdout } t

end

def main (fuel : Nat) (args : List (List Char)) : Option Outcome :=
  if args.length + 1 = 1 then some (helpAndLeave EXIT_FAILURE [])
  else
    match find_identifier fuel args { curr := 0, stack := stack_init, stdout := [] } with
    | none => none
    | some (.exited o) => some o
    | some (.returned r s) =>
      if r = -1 then some (fatal "invalid declaration: no identifier".toList s.stdout)
      else
        match parse_declarator fuel args s with
        | none => none
        | some (rd, s) =>
          if rd = -1 then
            match args[s.curr]? with
            | some w => some (fatal ("syntax error in declaration near ".toList ++ w) s.stdout)
            | none => some (fatal "syntax error in declaration".toList s.stdout)
          else some ⟨EXIT_SUCCESS, s.stdout ++ "\n".toList, []⟩

/-! ## Auxiliary definitions used to state the properties -/

/-- The four qualifier words of the vocabulary. -/
def qualifier_words : List (List Char) :=
  ["const".toList, "unsigned".toList, "volatile".toList, "*".toList]

/-- The six type keywords of the vocabulary. -/
def type_words : List (List Char) :=
  ["int".toList, "long".toList, "char".toList, "float".toList, "double".toList, "void".toList]

/-- The words the classifier recognises by exact comparison. -/
def reserved_words : List (List Char) :=
  ["(".toList, ")".toList, "[".toList, "]".toList] ++ qualifier_words ++ type_words

/-- The token `find_identifier` builds from a word before pushing it. -/
def word_token (w : List Char) : token :=
  { type := classify_string (some w), string := w.take (MAXTOKENLEN - 1) }

/-- A word that `find_identifier` pushes: neither an identifier nor unknown. -/
def is_pushed (w : List Char) : Prop :=
  classify_string (some w) ≠ TOKEN_IDENTIFIER ∧ classify_string (some w) ≠ TOKEN_UNKNOWN

instance (w : List Char) : Decidable (is_pushed w) := by
  unfold is_pushed
  infer_instance

/-- Whether `print_pointers` takes the token for a pointer marker. -/
def is_star (t : token) : Bool := decide (strncmp t.string "*".toList MAXTOKENLEN = 0)

/-- The text of `k` pointer fragments. -/
def pointers_text (k : Nat) : List Char :=
  (List.replicate k "pointer to ".toList).flatten

/-- The fragment the rendering rule assigns to a left-context word: `*` gives
"pointer to ", `const` gives "read-only ", a type keyword gives itself and a space. -/
def fragment (w : List Char) : List Char :=
  if w = "*".toList then "pointer to ".toList
  else if w = "const".toList then "read-only ".toList
  else w ++ " ".toList

/-- The words `*`, `const` and the six type keywords. -/
def simple_words : List (List Char) :=
  ["*".toList, "const".toList] ++ type_words

/-- The first part of `parse_declarator` (lines 197 to 209): the cursor step and the
array and function suffix handlers, with the status the function goes on with. -/
def declarator_suffixes (fuel : Nat) (chunks : List (List Char)) (s : State) :
    Option (Int × State) :=
  match (if classify_string chunks[s.curr + 1]? = TOKEN_ARRAY_BEGIN then
           handle_array chunks { s with curr := s.curr + 1 }
         else (0, { s with curr := s.curr + 1 })) with
  | (ra, s) =>
    if ra = -1 then some (-1, s)
    else if classify_string chunks[s.curr]? = TOKEN_FUNC_BEGIN then
      handle_function fuel chunks s
    else some (0, s)

/-- Fuel that is enough for any run of `main` on `args`. -/
def enough_fuel (args : List (List Char)) : Nat := 3 * args.length + 3

/-- The ways a run may end: a line on `stdout` with status 0, or one of the
diagnostics of `main` and `find_identifier` with status 1. -/
def defined_outcome (args : List (List Char)) (o : Outcome) : Prop :=
  (∃ text, o = ⟨EXIT_SUCCESS, text ++ "\n".toList, []⟩) ∨
  o = helpAndLeave EXIT_FAILURE [] ∨
  o = fatal "invalid declaration: no identifier".toList [] ∨
  (∃ w ∈ args, o = fatal ("internal error: unkown token type for ".toList ++ w) []) ∨
  o = pexit "stack_push".toList [] ∨
  (∃ text, o = fatal "syntax error in declaration".toList text) ∨
  (∃ w ∈ args, ∃ text, o = fatal ("syntax error in declaration near ".toList ++ w) text)

/-- Pushing the tokens of a list one after the other, the head first; it stops at the
first push that fails. -/
def push_all : token_stack → List token → Int × token_stack
  | stack, [] => (0, stack)
  | stack, t :: ts =>
    match stack_push stack t with
    | (r, stack) => if r = -1 then (-1, stack) else push_all stack ts

/-- Popping `k` times; the tokens are listed in the order they were popped. It stops
at the first pop that fails. -/
def pop_n : Nat → token_stack → token → Int × token_stack × List token
  | 0, stack, _ => (0, stack, [])
  | k + 1, stack, el =>
    match stack_pop stack el with
    | (r, stack, el) =>
      if r = -1 then (-1, stack, [])
      else
        match pop_n k stack el with
        | (r2, stack, popped) => (r2, stack, el :: popped)

/-- The six kinds `find_identifier` pushes. -/
def pushed_kinds : List token_type :=
  [TOKEN_TYPE, TOKEN_QUALIFIER, TOKEN_ARRAY_BEGIN, TOKEN_ARRAY_END, TOKEN_FUNC_BEGIN,
    TOKEN_FUNC_END]

/-- The invariant on a token of the stack: its kind is one of the six pushed kinds and
is the classification of its text. -/
def good_token (t : token) : Prop :=
  t.type ∈ pushed_kinds ∧ t.type = classify_string (some t.string)

instance (t : token) : Decidable (good_token t) := by
  unfold good_token
  infer_instance

/-- The invariant on the stack: every token is good and the size is at most 128. -/
def good_stack (stack : token_stack) : Prop :=
  (∀ t ∈ stack, good_token t) ∧ stack.length ≤ MAXTOKENLEN

instance (stack : token_stack) : Decidable (good_stack stack) := by
  unfold good_stack
  infer_instance



/-! ## Facts about the libc model -/

theorem strncmp_eq_zero_iff (a b : List Char) (n : Nat) :
    strncmp a b n = 0 ↔ a.take n = b.take n := by
  induction n generalizing a b with
  | zero => simp [strncmp]
  | succ n ih =>
    cases a with
    | nil => cases b <;> simp [strncmp]
    | cons x xs =>
      cases b with
      | nil => simp [strncmp]
      | cons y ys =>
        simp only [strncmp, List.take_succ_cons, List.cons.injEq]
        by_cases h1 : x.toNat < y.toNat
        · have : x ≠ y := by rintro rfl; omega
          simp [h1, this]
        · by_cases h2 : y.toNat < x.toNat
          · have : x ≠ y := by rintro rfl; omega
            simp [h1, h2, this]
          · have hxy : x = y := by
              apply Char.ext
              apply UInt32.ext
              have : x.toNat = y.toNat := by omega
              exact this
            simp [h1, h2, hxy, ih]

/-- Against a string shorter than the bound, `strncmp` is an exact comparison. -/
theorem strncmp_short (w lit : List Char) (n : Nat) (h : lit.length < n) :
    strncmp w lit n = 0 ↔ w = lit := by
  rw [strncmp_eq_zero_iff, List.take_of_length_le (Nat.le_of_lt h)]
  constructor
  · intro hw
    have hl : (w.take n).length = lit.length := by rw [hw]
    rw [List.length_take] at hl
    have : w.length ≤ n := by omega
    rw [List.take_of_length_le this] at hw
    exact hw
  · rintro rfl
    exact List.take_of_length_le (Nat.le_of_lt h)

/-! ## The classifier -/

theorem str_is_any_iff (w : List Char) (lits : List (List Char))
    (h : ∀ l ∈ lits, l.length < MAXTOKENLEN) :
    str_is_any w MAXTOKENLEN lits = true ↔ w ∈ lits := by
  unfold str_is_any
  rw [List.any_eq_true]
  constructor
  · rintro ⟨l, hl, hz⟩
    have := (strncmp_short w l MAXTOKENLEN (h l hl)).1 (by simpa using hz)
    exact this ▸ hl
  · intro hw
    exact ⟨w, hw, by simpa using (strncmp_short w w MAXTOKENLEN (h w hw)).2 rfl⟩

/-- The classifier as a chain of exact comparisons. -/
theorem classify_string_some (w : List Char) :
    classify_string (some w) =
      if w = "(".toList then TOKEN_FUNC_BEGIN
      else if w = ")".toList then TOKEN_FUNC_END
      else if w = "[".toList then TOKEN_ARRAY_BEGIN
      else if w = "]".toList then TOKEN_ARRAY_END
      else if w ∈ qualifier_words then TOKEN_QUALIFIER
      else if w ∈ type_words then TOKEN_TYPE
      else if valid_identifier w = true then TOKEN_IDENTIFIER
      else TOKEN_UNKNOWN := by
  have h1 := strncmp_short w "(".toList MAXTOKENLEN (by decide)
  have h2 := strncmp_short w ")".toList MAXTOKENLEN (by decide)
  have h3 := strncmp_short w "[".toList MAXTOKENLEN (by decide)
  have h4 := strncmp_short w "]".toList MAXTOKENLEN (by decide)
  have hq := str_is_any_iff w qualifier_words (by decide)
  have ht := str_is_any_iff w type_words (by decide)
  unfold qualifier_words at hq
  unfold type_words at ht
  simp only [classify_string, h1, h2, h3, h4, hq, ht, qualifier_words, type_words]

theorem valid_identifier_nil : valid_identifier [] = true := by decide

theorem classify_string_reserved_cases (w : List Char) :
    (classify_string (some w) = TOKEN_FUNC_BEGIN ↔ w = "(".toList) ∧
    (classify_string (some w) = TOKEN_FUNC_END ↔ w = ")".toList) ∧
    (classify_string (some w) = TOKEN_ARRAY_BEGIN ↔ w = "[".toList) ∧
    (classify_string (some w) = TOKEN_ARRAY_END ↔ w = "]".toList) ∧
    (classify_string (some w) = TOKEN_QUALIFIER ↔ w ∈ qualifier_words) ∧
    (classify_string (some w) = TOKEN_TYPE ↔ w ∈ type_words) := by
  rw [classify_string_some]
  by_cases h1 : w = "(".toList
  · subst h1; decide
  by_cases h2 : w = ")".toList
  · subst h2; decide
  by_cases h3 : w = "[".toList
  · subst h3; decide
  by_cases h4 : w = "]".toList
  · subst h4; decide
  by_cases hq : w ∈ qualifier_words
  · simp only [h1, h2, h3, h4, hq, if_true, if_false]
    have ht : w ∉ type_words := by
      intro ht
      revert hq ht
      simp only [qualifier_words, type_words, List.mem_cons, List.mem_singleton, List.not_mem_nil, or_false]
      rintro (h | h | h | h) <;> subst h <;> decide
    simpa using ht
  by_cases ht : w ∈ type_words
  · simp only [h1, h2, h3, h4, hq, ht, if_true, if_false]
    simp
  · simp only [h1, h2, h3, h4, hq, ht, if_false]
    split <;> simp

/-! ## The identifier search -/

theorem find_identifier_push (fuel : Nat) (chunks : List (List Char)) (s : State)
    (w : List Char) (hw : chunks[s.curr]? = some w) (hp : is_pushed w)
    (hsz : s.stack.length < MAXTOKENLEN) :
    find_identifier (fuel + 1) chunks s =
      find_identifier fuel chunks
        { s with stack := word_token w :: s.stack, curr := s.curr + 1 } := by
  obtain ⟨h1, h2⟩ := hp
  have hne : s.stack.length ≠ MAXTOKENLEN := Nat.ne_of_lt hsz
  rw [find_identifier]
  simp only [hw, word_token]
  cases hc : classify_string (some w) <;> simp_all [stack_push]

theorem find_identifier_found (fuel : Nat) (chunks : List (List Char)) (s : State)
    (w : List Char) (hw : chunks[s.curr]? = some w)
    (hid : classify_string (some w) = TOKEN_IDENTIFIER) :
    find_identifier (fuel + 1) chunks s =
      some (.returned 0 { s with stdout := s.stdout ++ w ++ " is a ".toList }) := by
  rw [find_identifier]
  simp only [hw, hid]

theorem find_identifier_unknown (fuel : Nat) (chunks : List (List Char)) (s : State)
    (w : List Char) (hw : chunks[s.curr]? = some w)
    (hu : classify_string (some w) = TOKEN_UNKNOWN) :
    find_identifier (fuel + 1) chunks s =
      some (.exited (fatal ("internal error: unkown token type for ".toList ++ w) s.stdout)) := by
  rw [find_identifier]
  simp only [hw, hu]

theorem find_identifier_end (fuel : Nat) (chunks : List (List Char)) (s : State)
    (hw : chunks[s.curr]? = none) :
    find_identifier (fuel + 1) chunks s = some (.returned (-1) s) := by
  rw [find_identifier]
  simp only [hw]

theorem find_identifier_full (fuel : Nat) (chunks : List (List Char)) (s : State)
    (w : List Char) (hw : chunks[s.curr]? = some w) (hp : is_pushed w)
    (hsz : s.stack.length = MAXTOKENLEN) :
    find_identifier (fuel + 1) chunks s =
      some (.exited (pexit "stack_push".toList s.stdout)) := by
  obtain ⟨h1, h2⟩ := hp
  rw [find_identifier]
  simp only [hw]
  cases hc : classify_string (some w) <;> simp_all [stack_push]

/-- Scanning a run `L` of pushed words found at the cursor: they end up on the
stack, last word on top, and the cursor moves past them. -/
theorem find_identifier_scan (chunks : List (List Char)) (out : List Char)
    (L : List (List Char)) :
    ∀ (c : Nat) (stack : token_stack) (fuel : Nat),
      (∀ i, i < L.length → chunks[c + i]? = L[i]?) →
      (∀ w ∈ L, is_pushed w) → stack.length + L.length ≤ MAXTOKENLEN →
      find_identifier (fuel + L.length) chunks { curr := c, stack := stack, stdout := out } =
        find_identifier fuel chunks
          { curr := c + L.length,
            stack := (L.map word_token).reverse ++ stack, stdout := out } := by
  induction L with
  | nil => intro c stack fuel _ _ _; simp
  | cons w L ih =>
    intro c stack fuel hch hL hsz
    have hw : chunks[c]? = some w := by simpa using hch 0 (by simp)
    simp only [List.length_cons] at hsz ⊢
    rw [← Nat.add_assoc, find_identifier_push _ _ _ w hw (hL w (List.mem_cons_self _ _))
      (by simp only []; omega)]
    have h := ih (c + 1) (word_token w :: stack) fuel
      (fun i hi => by
        have := hch (i + 1) (by simp only [List.length_cons]; omega)
        simpa [Nat.add_assoc, Nat.add_comm 1 i] using this)
      (fun x hx => hL x (List.mem_cons_of_mem _ hx)) (by simp only [List.length_cons]; omega)
    simp only [List.map_cons, List.reverse_cons, List.append_assoc, List.singleton_append]
    rw [h]
    congr 2
    omega

/-! ## Draining the stack -/

theorem pointers_text_succ (k : Nat) (out : List Char) :
    out ++ pointers_text (k + 1) = (out ++ "pointer to ".toList) ++ pointers_text k := by
  simp [pointers_text, List.replicate_succ]

theorem print_pointers_loop_spec (fuel : Nat) :
    ∀ (c : Nat) (stack : token_stack) (out : List Char) (t : token),
      stack.length < fuel → stack.length < MAXTOKENLEN →
      print_pointers_loop fuel { curr := c, stack := stack, stdout := out } t =
        some { curr := c, stack := (t :: stack).dropWhile is_star,
               stdout := out ++ pointers_text ((t :: stack).takeWhile is_star).length } := by
  induction fuel with
  | zero => intro c stack out t h; omega
  | succ fuel ih =>
    intro c stack out t hf hsz
    rw [print_pointers_loop]
    by_cases ht : strncmp t.string "*".toList MAXTOKENLEN = 0
    · have hs : is_star t = true := by unfold is_star; exact decide_eq_true ht
      simp only [ht, if_true, List.dropWhile_cons, List.takeWhile_cons, hs, List.length_cons]
      cases stack with
      | nil => simp [stack_pop, pointers_text]
      | cons top rest =>
        simp only [List.length_cons] at hf hsz
        have := ih c rest (out ++ "pointer to ".toList) top (by omega) (by omega)
        simp only [stack_pop]
        rw [if_neg (by decide), this, pointers_text_succ]
    · have hs : is_star t = false := by unfold is_star; exact decide_eq_false ht
      have hne : stack.length ≠ MAXTOKENLEN := Nat.ne_of_lt hsz
      rw [if_neg ht]
      simp [hs, stack_push, hne, pointers_text]

/-- What `print_pointers` does: it removes the maximal run of `*` tokens from the top
of the stack and prints one fragment for each. -/
theorem print_pointers_spec (fuel c : Nat) (stack : token_stack) (out : List Char) (t : token)
    (hf : stack.length ≤ fuel) (hsz : stack.length ≤ MAXTOKENLEN) :
    print_pointers fuel { curr := c, stack := stack, stdout := out } t =
      some { curr := c, stack := stack.dropWhile is_star,
             stdout := out ++ pointers_text (stack.takeWhile is_star).length } := by
  cases stack with
  | nil => simp [print_pointers, stack_pop, pointers_text]
  | cons top rest =>
    simp only [List.length_cons] at hf hsz
    simp only [print_pointers, stack_pop]
    rw [if_neg (by decide)]
    exact print_pointers_loop_spec fuel c rest out top (by omega) (by omega)

/-- The drain loop on a stack that holds no `(`: every token is printed, top first. -/
theorem parse_declarator_loop_flat (chunks : List (List Char)) (c : Nat) (stack : token_stack) :
    ∀ (fuel : Nat) (out : List Char) (t : token),
      stack.length < fuel →
      (∀ x ∈ stack, strncmp x.string "(".toList MAXTOKENLEN ≠ 0) →
      parse_declarator_loop fuel chunks { curr := c, stack := stack, stdout := out } t =
        some (0, { curr := c, stack := [],
                   stdout := stack.foldl (fun o x => print_token x o) out }) := by
  induction stack with
  | nil =>
    intro fuel out t hf _
    cases fuel with
    | zero => simp at hf
    | succ fuel => simp [parse_declarator_loop, stack_pop]
  | cons top rest ih =>
    intro fuel out t hf hst
    cases fuel with
    | zero => simp at hf
    | succ fuel =>
      simp only [List.length_cons] at hf
      have htop := hst top (List.mem_cons_self _ _)
      rw [parse_declarator_loop]
      simp only [stack_pop]
      rw [if_neg (by decide), if_neg htop]
      exact ih fuel _ top (by omega) (fun x hx => hst x (List.mem_cons_of_mem _ hx))

/-- A declarator level whose next word starts neither an array nor a function suffix
goes straight to the stack. -/
theorem parse_declarator_no_suffix (fuel : Nat) (chunks : List (List Char)) (s : State)
    (ha : classify_string chunks[s.curr + 1]? ≠ TOKEN_ARRAY_BEGIN)
    (hf : classify_string chunks[s.curr + 1]? ≠ TOKEN_FUNC_BEGIN) :
    parse_declarator (fuel + 1) chunks s =
      match print_pointers fuel { s with curr := s.curr + 1 } token_uninit with
      | none => none
      | some s => parse_declarator_loop fuel chunks s token_uninit := by
  rw [parse_declarator]
  simp only [if_neg ha]
  rw [if_neg (by decide)]
  simp only [if_neg hf]
  rw [if_neg (by decide)]

/-! ## Left context made of pointers, `const` and type keywords -/

theorem print_token_append (t : token) (out : List Char) :
    print_token t out = out ++ print_token t [] := by
  unfold print_token
  split_ifs <;> simp

theorem simple_word_facts (w : List Char) (hw : w ∈ simple_words) :
    is_pushed w ∧ print_token (word_token w) [] = fragment w ∧
      strncmp (word_token w).string "(".toList MAXTOKENLEN ≠ 0 ∧
      (is_star (word_token w) = true → fragment w = "pointer to ".toList) := by
  simp only [simple_words, type_words, List.cons_append, List.nil_append, List.mem_cons,
    List.mem_singleton, List.not_mem_nil, or_false] at hw
  rcases hw with h | h | h | h | h | h | h | h <;> subst h <;> decide

/-- Printing a stack of simple words after `print_pointers` took the leading `*` run
gives the fragments of all of them, top first. -/
theorem drain_simple (M : List (List Char)) :
    ∀ (out : List Char), (∀ w ∈ M, w ∈ simple_words) →
      ((M.map word_token).dropWhile is_star).foldl (fun o x => print_token x o)
          (out ++ pointers_text ((M.map word_token).takeWhile is_star).length) =
        out ++ (M.map fragment).flatten := by
  induction M with
  | nil => intro out _; simp [pointers_text]
  | cons w M ih =>
    intro out hM
    obtain ⟨_, hpt, _, hstar⟩ := simple_word_facts w (hM w (List.mem_cons_self _ _))
    have hM2 : ∀ x ∈ M, x ∈ simple_words := fun x hx => hM x (List.mem_cons_of_mem _ hx)
    by_cases hs : is_star (word_token w) = true
    · simp only [List.map_cons, List.dropWhile_cons, List.takeWhile_cons, hs, if_true,
        List.length_cons, List.flatten_cons]
      rw [pointers_text_succ, ih _ hM2, hstar hs, List.append_assoc]
    · have hflat : ∀ (N : List (List Char)) (o : List Char), (∀ x ∈ N, x ∈ simple_words) →
          (N.map word_token).foldl (fun o x => print_token x o) o =
            o ++ (N.map fragment).flatten := by
        intro N
        induction N with
        | nil => intro o _; simp
        | cons x N ihN =>
          intro o hN
          obtain ⟨_, hx, _, _⟩ := simple_word_facts x (hN x (List.mem_cons_self _ _))
          simp only [List.map_cons, List.foldl_cons, List.flatten_cons]
          rw [ihN _ (fun y hy => hN y (List.mem_cons_of_mem _ hy)), print_token_append, hx,
            List.append_assoc]
      simp only [Bool.not_eq_true] at hs
      simp only [List.map_cons, List.dropWhile_cons, List.takeWhile_cons, hs, List.length_nil]
      have := hflat (w :: M) out hM
      simpa [pointers_text] using this

/-! ## The whole program on simple declarations -/

theorem simple_words_iff (w : List Char) :
    w ∈ simple_words ↔ (w = "*".toList ∨ w = "const".toList ∨ w ∈ type_words) := by
  simp [simple_words]

/-- The search on `L ++ id :: R` where `L` is a run of at most 128 pushed words and `id`
an identifier. -/
theorem find_identifier_left_context (L R : List (List Char)) (id : List Char) (fuel : Nat)
    (hid : classify_string (some id) = TOKEN_IDENTIFIER)
    (hlen : L.length ≤ MAXTOKENLEN) (hL : ∀ w ∈ L, is_pushed w) (hfuel : L.length < fuel) :
    find_identifier fuel (L ++ id :: R) { curr := 0, stack := stack_init, stdout := [] } =
      some (.returned 0 { curr := L.length, stack := (L.map word_token).reverse,
                          stdout := id ++ " is a ".toList }) := by
  obtain ⟨k, rfl⟩ : ∃ k, fuel = (k + 1) + L.length := ⟨fuel - L.length - 1, by omega⟩
  rw [find_identifier_scan (L ++ id :: R) [] L 0 stack_init (k + 1)
    (fun i hi => by simp [List.getElem?_append_left hi]) hL (by simpa [stack_init] using hlen)]
  have hw : (L ++ id :: R)[0 + L.length]? = some id := by
    rw [Nat.zero_add, List.getElem?_append_right (Nat.le_refl _)]
    simp
  rw [find_identifier_found k _ _ id hw hid]
  simp [stack_init]

/-- C1: for an input `L id` where `id` is an identifier and `L` has at most 128
words, each `*`, `const` or a type keyword, the program exits successfully and prints
"id is a ", then the fragments of the words of `L` in reverse order, then a newline. -/
theorem C1_left_context_rendered_in_reverse (L : List (List Char)) (id : List Char)
    (fuel : Nat)
    (hid : classify_string (some id) = TOKEN_IDENTIFIER)
    (hlen : L.length ≤ 128)
    (hL : ∀ w ∈ L, w = "*".toList ∨ w = "const".toList ∨ w ∈ type_words)
    (hfuel : L.length + 2 ≤ fuel) :
    main fuel (L ++ [id]) =
      some { status := EXIT_SUCCESS,
             stdout := id ++ " is a ".toList ++ (L.reverse.map fragment).flatten ++ "\n".toList,
             stderr := [] } := by
  have hs : ∀ w ∈ L, w ∈ simple_words := fun w hw => (simple_words_iff w).2 (hL w hw)
  have hfind := find_identifier_left_context L [] id fuel hid hlen
    (fun w hw => (simple_word_facts w (hs w hw)).1) (by omega)
  obtain ⟨k, rfl⟩ : ∃ k, fuel = k + 1 := ⟨fuel - 1, by omega⟩
  have hnone : (L ++ [id])[L.length + 1]? = none := by
    apply List.getElem?_eq_none
    simp
  have hpd := parse_declarator_no_suffix k (L ++ [id])
    { curr := L.length, stack := (L.map word_token).reverse, stdout := id ++ " is a ".toList }
    (by simp only [hnone]; decide) (by simp only [hnone]; decide)
  rw [print_pointers_spec k _ _ _ _ (by simp; omega) (by simpa using hlen)] at hpd
  simp only at hpd
  rw [parse_declarator_loop_flat _ _ _ k _ _
    (by
      have := (List.dropWhile_sublist is_star (l := (L.map word_token).reverse)).length_le
      simp only [List.length_reverse, List.length_map] at this
      omega)
    (by
      intro x hx
      have hx2 := (List.dropWhile_sublist is_star).subset hx
      simp only [List.mem_reverse, List.mem_map] at hx2
      obtain ⟨w, hw, rfl⟩ := hx2
      exact (simple_word_facts w (hs w hw)).2.2.1)] at hpd
  have hdr := drain_simple L.reverse (id ++ " is a ".toList)
    (fun w hw => hs w (List.mem_reverse.1 hw))
  rw [List.map_reverse word_token L] at hdr
  rw [hdr] at hpd
  unfold main
  rw [if_neg (by simp), hfind]
  simp only
  rw [if_neg (by decide), hpd]
  simp only
  rw [if_neg (by decide)]

/-- An instance of C1: `int * x`. -/
theorem C1_left_context_rendered_in_reverse_witness :
    main 4 ["int".toList, "*".toList, "x".toList] =
      some { status := EXIT_SUCCESS, stdout := "x is a pointer to int \n".toList, stderr := [] } :=
  C1_left_context_rendered_in_reverse ["int".toList, "*".toList] "x".toList 4
    (by decide) (by decide) (by decide) (by decide)

/-! ## Termination -/

theorem parse_declarator_succ (fuel : Nat) (chunks : List (List Char)) (s : State) :
    parse_declarator (fuel + 1) chunks s =
      match declarator_suffixes fuel chunks s with
      | none => none
      | some (r, s) =>
        if r = -1 then some (-1, s)
        else
          match print_pointers fuel s token_uninit with
          | none => none
          | some s => parse_declarator_loop fuel chunks s token_uninit := by
  rw [parse_declarator, declarator_suffixes]
  generalize (if classify_string chunks[s.curr + 1]? = TOKEN_ARRAY_BEGIN then
           handle_array chunks { s with curr := s.curr + 1 }
         else ((0 : Int), { s with curr := s.curr + 1 })) = ra
  obtain ⟨r1, s1⟩ := ra
  simp only
  by_cases h1 : r1 = -1
  · simp [h1]
  · simp only [if_neg h1]

theorem handle_function_mono (fuel : Nat) :
    ∀ (chunks : List (List Char)) (s : State) (r : Int × State),
      handle_function fuel chunks s = some r → handle_function (fuel + 1) chunks s = some r := by
  induction fuel with
  | zero => intro chunks s r h; simp [handle_function] at h
  | succ n ih =>
    intro chunks s r h
    rw [handle_function] at h ⊢
    split_ifs at h ⊢ with h1 h2
    · exact h
    · exact h
    · exact ih _ _ _ h

theorem handle_function_stack (fuel : Nat) :
    ∀ (chunks : List (List Char)) (s : State) (r : Int × State),
      handle_function fuel chunks s = some r → r.2.stack = s.stack := by
  induction fuel with
  | zero => intro chunks s r h; simp [handle_function] at h
  | succ n ih =>
    intro chunks s r h
    rw [handle_function] at h
    split_ifs at h with h1 h2
    · cases h; rfl
    · cases h; rfl
    · exact ih _ _ _ h ▸ rfl

theorem handle_function_total (fuel : Nat) :
    ∀ (chunks : List (List Char)) (s : State), 1 ≤ fuel → chunks.length ≤ s.curr + fuel →
      ∃ r, handle_function fuel chunks s = some r := by
  induction fuel with
  | zero => intro chunks s h; omega
  | succ n ih =>
    intro chunks s _ hlen
    rw [handle_function]
    split_ifs with h1 h2
    · exact ⟨_, rfl⟩
    · exact ⟨_, rfl⟩
    · have hlt : s.curr + 1 < chunks.length := by
        by_contra hge
        have : chunks[s.curr + 1]? = none := List.getElem?_eq_none (by omega)
        rw [this] at h2
        exact h2 rfl
      exact ih chunks { s with curr := s.curr + 1 } (by omega) (by simp only; omega)

theorem handle_array_stack (chunks : List (List Char)) (s : State) :
    (handle_array chunks s).2.stack = s.stack := by
  unfold handle_array
  split
  · rfl
  · split_ifs <;> rfl

theorem declarator_suffixes_mono (fuel : Nat) (chunks : List (List Char)) (s : State)
    (r : Int × State) (h : declarator_suffixes fuel chunks s = some r) :
    declarator_suffixes (fuel + 1) chunks s = some r := by
  unfold declarator_suffixes at h ⊢
  split at h
  rename_i ra s1 heq
  split_ifs at h ⊢ with h1 h2
  · exact h
  · exact handle_function_mono _ _ _ _ h
  · exact h

theorem declarator_suffixes_stack (fuel : Nat) (chunks : List (List Char)) (s : State)
    (r : Int × State) (h : declarator_suffixes fuel chunks s = some r) :
    r.2.stack = s.stack := by
  unfold declarator_suffixes at h
  split at h
  rename_i ra s1 heq
  have hs1 : s1.stack = s.stack := by
    split_ifs at heq
    · have := handle_array_stack chunks { s with curr := s.curr + 1 }
      rw [heq] at this
      exact this
    · cases heq; rfl
  split_ifs at h with h1 h2
  · cases h; exact hs1
  · rw [handle_function_stack _ _ _ _ h]; exact hs1
  · cases h; exact hs1

theorem declarator_suffixes_total (fuel : Nat) (chunks : List (List Char)) (s : State)
    (h1 : 1 ≤ fuel) (hlen : chunks.length ≤ fuel) :
    ∃ r, declarator_suffixes fuel chunks s = some r := by
  unfold declarator_suffixes
  split
  rename_i ra s1 heq
  split_ifs
  · exact ⟨_, rfl⟩
  · exact handle_function_total fuel chunks s1 h1 (by omega)
  · exact ⟨_, rfl⟩


theorem stack_push_length (stack : token_stack) (t : token) :
    (stack_push stack t).2.length ≤ stack.length + 1 := by
  unfold stack_push
  split_ifs <;> simp

theorem print_pointers_loop_mono (fuel : Nat) :
    ∀ (s : State) (t : token) (r : State),
      print_pointers_loop fuel s t = some r → print_pointers_loop (fuel + 1) s t = some r := by
  induction fuel with
  | zero => intro s t r h; simp [print_pointers_loop] at h
  | succ n ih =>
    intro s t r h
    rw [print_pointers_loop] at h ⊢
    split_ifs at h ⊢ with h1
    · cases hs : s.stack with
      | nil => simpa [hs, stack_pop] using h
      | cons top rest =>
        simp only [hs, stack_pop] at h ⊢
        rw [if_neg (by decide)] at h ⊢
        exact ih _ _ _ h
    · exact h

theorem print_pointers_mono (fuel : Nat) (s : State) (t : token) (r : State)
    (h : print_pointers fuel s t = some r) : print_pointers (fuel + 1) s t = some r := by
  unfold print_pointers at h ⊢
  cases hs : s.stack with
  | nil => simpa [hs, stack_pop] using h
  | cons top rest =>
    simp only [hs, stack_pop] at h ⊢
    rw [if_neg (by decide)] at h ⊢
    exact print_pointers_loop_mono _ _ _ _ h

theorem print_pointers_loop_total (fuel : Nat) :
    ∀ (s : State) (t : token), s.stack.length < fuel →
      ∃ r, print_pointers_loop fuel s t = some r ∧ r.stack.length ≤ s.stack.length + 1 := by
  induction fuel with
  | zero => intro s t h; omega
  | succ n ih =>
    intro s t hf
    rw [print_pointers_loop]
    split_ifs with h1
    · cases hs : s.stack with
      | nil =>
        simp only [stack_pop]
        rw [if_pos trivial]
        exact ⟨_, rfl, by simp⟩
      | cons top rest =>
        simp only [stack_pop]
        rw [if_neg (by decide)]
        rw [hs] at hf
        simp only [List.length_cons] at hf ⊢
        obtain ⟨r, hr, hlen⟩ := ih ⟨s.curr, rest, s.stdout ++ "pointer to ".toList⟩ top
          (by simp only; omega)
        exact ⟨r, hr, by simp only at hlen; omega⟩
    · exact ⟨_, rfl, stack_push_length _ _⟩

theorem print_pointers_total (fuel : Nat) (s : State) (t : token)
    (hf : s.stack.length ≤ fuel) :
    ∃ r, print_pointers fuel s t = some r ∧ r.stack.length ≤ s.stack.length := by
  unfold print_pointers
  cases hs : s.stack with
  | nil =>
    simp only [stack_pop]
    rw [if_pos trivial]
    exact ⟨_, rfl, by simp [hs]⟩
  | cons top rest =>
    simp only [stack_pop]
    rw [if_neg (by decide)]
    rw [hs] at hf
    simp only [List.length_cons] at hf ⊢
    obtain ⟨r, hr, hlen⟩ := print_pointers_loop_total fuel ⟨s.curr, rest, s.stdout⟩ top
      (by simp only; omega)
    exact ⟨r, hr, by simpa using hlen⟩

theorem parse_declarator_loop_succ (fuel : Nat) (chunks : List (List Char)) (s : State)
    (t : token) :
    parse_declarator_loop (fuel + 1) chunks s t =
      match s.stack with
      | [] => some (0, s)
      | top :: rest =>
        if strncmp top.string "(".toList MAXTOKENLEN = 0 then
          if (match chunks[s.curr]? with
              | none => true
              | some w => strncmp w ")".toList MAXTOKENLEN ≠ 0) then
            some (-1, { s with stack := rest })
          else
            match parse_declarator fuel chunks { s with stack := rest } with
            | none => none
            | some (_, s) => parse_declarator_loop fuel chunks s top
        else
          parse_declarator_loop fuel chunks
            { s with stack := rest, stdout := print_token top s.stdout } top := by
  rw [parse_declarator_loop]
  cases hs : s.stack with
  | nil => simp [stack_pop]
  | cons top rest =>
    simp only [stack_pop]
    rw [if_neg (by decide)]

theorem parse_declarator_mono_both (fuel : Nat) :
    (∀ (chunks : List (List Char)) (s : State) (r : Int × State),
      parse_declarator fuel chunks s = some r → parse_declarator (fuel + 1) chunks s = some r) ∧
    (∀ (chunks : List (List Char)) (s : State) (t : token) (r : Int × State),
      parse_declarator_loop fuel chunks s t = some r →
        parse_declarator_loop (fuel + 1) chunks s t = some r) := by
  induction fuel with
  | zero =>
    constructor
    · intro chunks s r h; simp [parse_declarator] at h
    · intro chunks s t r h; simp [parse_declarator_loop] at h
  | succ n ih =>
    obtain ⟨ihd, ihl⟩ := ih
    constructor
    · intro chunks s r h
      rw [parse_declarator_succ] at h ⊢
      cases hsuf : declarator_suffixes n chunks s with
      | none => simp [hsuf] at h
      | some x =>
        rw [declarator_suffixes_mono _ _ _ _ hsuf]
        rw [hsuf] at h
        obtain ⟨r1, s1⟩ := x
        simp only at h ⊢
        split_ifs at h ⊢ with h1
        · exact h
        · cases hpp : print_pointers n s1 token_uninit with
          | none => simp [hpp] at h
          | some s2 =>
            rw [print_pointers_mono _ _ _ _ hpp]
            rw [hpp] at h
            exact ihl _ _ _ _ h
    · intro chunks s t r h
      rw [parse_declarator_loop_succ] at h ⊢
      cases hs : s.stack with
      | nil => simpa [hs] using h
      | cons top rest =>
        simp only [hs] at h ⊢
        split_ifs at h ⊢ with h1 h2
        · exact h
        · cases hd : parse_declarator n chunks { s with stack := rest } with
          | none => simp [hd] at h
          | some x =>
            rw [ihd _ _ _ hd]
            rw [hd] at h
            exact ihl _ _ _ _ h
        · exact ihl _ _ _ _ h

theorem parse_declarator_total_both (fuel : Nat) :
    (∀ (chunks : List (List Char)) (s : State),
      2 * s.stack.length + chunks.length + 3 ≤ fuel →
      ∃ r, parse_declarator fuel chunks s = some r ∧ r.2.stack.length ≤ s.stack.length) ∧
    (∀ (chunks : List (List Char)) (s : State) (t : token),
      2 * s.stack.length + chunks.length + 2 ≤ fuel →
      ∃ r, parse_declarator_loop fuel chunks s t = some r ∧
        r.2.stack.length ≤ s.stack.length) := by
  induction fuel with
  | zero =>
    constructor
    · intro chunks s h; omega
    · intro chunks s t h; omega
  | succ n ih =>
    obtain ⟨ihd, ihl⟩ := ih
    constructor
    · intro chunks s hf
      rw [parse_declarator_succ]
      obtain ⟨x, hx⟩ := declarator_suffixes_total n chunks s (by omega) (by omega)
      have hst := declarator_suffixes_stack _ _ _ _ hx
      rw [hx]
      obtain ⟨r1, s1⟩ := x
      simp only at hst ⊢
      split_ifs with h1
      · exact ⟨_, rfl, by simp [hst]⟩
      · obtain ⟨s2, hs2, hlen2⟩ := print_pointers_total n s1 token_uninit (by rw [hst]; omega)
        rw [hs2]
        simp only
        obtain ⟨r, hr, hlen⟩ := ihl chunks s2 token_uninit (by rw [hst] at hlen2; omega)
        exact ⟨r, hr, by rw [hst] at hlen2; omega⟩
    · intro chunks s t hf
      rw [parse_declarator_loop_succ]
      cases hs : s.stack with
      | nil => exact ⟨_, rfl, by simp [hs]⟩
      | cons top rest =>
        rw [hs] at hf
        simp only [List.length_cons] at hf ⊢
        split_ifs with h1 h2
        · exact ⟨_, rfl, by simp⟩
        · obtain ⟨x, hx, hlx⟩ := ihd chunks { s with stack := rest } (by simp only; omega)
          rw [hx]
          obtain ⟨r1, s1⟩ := x
          simp only at hlx ⊢
          obtain ⟨r, hr, hlen⟩ := ihl chunks s1 top (by omega)
          exact ⟨r, hr, by omega⟩
        · obtain ⟨r, hr, hlen⟩ := ihl chunks ⟨s.curr, rest, print_token top s.stdout⟩ top
            (by simp only; omega)
          exact ⟨r, hr, by simp only at hlen; omega⟩


theorem classify_cases (w : List Char) :
    classify_string (some w) = TOKEN_IDENTIFIER ∨ classify_string (some w) = TOKEN_UNKNOWN ∨
      is_pushed w := by
  unfold is_pushed
  by_cases h1 : classify_string (some w) = TOKEN_IDENTIFIER
  · exact Or.inl h1
  · by_cases h2 : classify_string (some w) = TOKEN_UNKNOWN
    · exact Or.inr (Or.inl h2)
    · exact Or.inr (Or.inr ⟨h1, h2⟩)

theorem find_identifier_mono (fuel : Nat) :
    ∀ (chunks : List (List Char)) (s : State) (c : Call),
      find_identifier fuel chunks s = some c → find_identifier (fuel + 1) chunks s = some c := by
  induction fuel with
  | zero => intro chunks s c h; simp [find_identifier] at h
  | succ n ih =>
    intro chunks s c h
    cases hw : chunks[s.curr]? with
    | none =>
      rw [find_identifier_end _ _ _ hw] at h ⊢
      exact h
    | some w =>
      rcases classify_cases w with hc | hc | hc
      · rw [find_identifier_found _ _ _ w hw hc] at h ⊢
        exact h
      · rw [find_identifier_unknown _ _ _ w hw hc] at h ⊢
        exact h
      · by_cases hsz : s.stack.length < MAXTOKENLEN
        · rw [find_identifier_push _ _ _ w hw hc hsz] at h ⊢
          exact ih _ _ _ h
        · by_cases hfull : s.stack.length = MAXTOKENLEN
          · rw [find_identifier_full _ _ _ w hw hc hfull] at h ⊢
            exact h
          · have hstep : ∀ f, find_identifier (f + 1) chunks s =
                find_identifier f chunks
                  { s with stack := word_token w :: s.stack, curr := s.curr + 1 } := by
              intro f
              obtain ⟨h1, h2⟩ := hc
              rw [find_identifier]
              simp only [hw, word_token]
              cases hcl : classify_string (some w) <;> simp_all [stack_push]
            rw [hstep] at h ⊢
            exact ih _ _ _ h

/-- The search ends within `chunks.length + 1 - s.curr` iterations, in one of four ways. -/
theorem find_identifier_total (fuel : Nat) :
    ∀ (chunks : List (List Char)) (s : State),
      s.stack.length ≤ MAXTOKENLEN → 1 ≤ fuel → chunks.length + 1 ≤ s.curr + fuel →
      ∃ c, find_identifier fuel chunks s = some c ∧
        ((∃ s2, c = .returned (-1) s2 ∧ s2.stdout = s.stdout) ∨
         (∃ s2, c = .returned 0 s2 ∧ s2.curr < chunks.length ∧
            s2.stack.length + s.curr ≤ s.stack.length + s2.curr) ∨
         (∃ w ∈ chunks, c = .exited
            (fatal ("internal error: unkown token type for ".toList ++ w) s.stdout)) ∨
         c = .exited (pexit "stack_push".toList s.stdout)) := by
  induction fuel with
  | zero =>
    intro chunks s _ h
    exact absurd h (by omega)
  | succ n ih =>
    intro chunks s hcap _ hf
    cases hw : chunks[s.curr]? with
    | none =>
      rw [find_identifier_end _ _ _ hw]
      exact ⟨_, rfl, Or.inl ⟨s, rfl, rfl⟩⟩
    | some w =>
      have hlt : s.curr < chunks.length := by
        by_contra hge
        rw [List.getElem?_eq_none (by omega)] at hw
        cases hw
      rcases classify_cases w with hc | hc | hc
      · rw [find_identifier_found _ _ _ w hw hc]
        exact ⟨_, rfl, Or.inr (Or.inl ⟨_, rfl, hlt, by simp⟩)⟩
      · rw [find_identifier_unknown _ _ _ w hw hc]
        exact ⟨_, rfl, Or.inr (Or.inr (Or.inl ⟨w, List.getElem?_mem hw, rfl⟩))⟩
      · by_cases hsz : s.stack.length < MAXTOKENLEN
        · rw [find_identifier_push _ _ _ w hw hc hsz]
          obtain ⟨c, hc1, hc2⟩ := ih chunks ⟨s.curr + 1, word_token w :: s.stack, s.stdout⟩
            (by simp only [List.length_cons]; omega) (by omega) (by simp only; omega)
          refine ⟨c, hc1, ?_⟩
          rcases hc2 with ⟨s2, h1, h2⟩ | ⟨s2, h1, h2, h3⟩ | ⟨x, hx, h1⟩ | h1
          · exact Or.inl ⟨s2, h1, h2⟩
          · refine Or.inr (Or.inl ⟨s2, h1, h2, ?_⟩)
            simp only [List.length_cons] at h3
            omega
          · exact Or.inr (Or.inr (Or.inl ⟨x, hx, h1⟩))
          · exact Or.inr (Or.inr (Or.inr h1))
        · have hfull : s.stack.length = MAXTOKENLEN := by omega
          rw [find_identifier_full _ _ _ w hw hc hfull]
          exact ⟨_, rfl, Or.inr (Or.inr (Or.inr rfl))⟩

theorem main_mono (fuel : Nat) (args : List (List Char)) (o : Outcome)
    (h : main fuel args = some o) : main (fuel + 1) args = some o := by
  unfold main at h ⊢
  split_ifs at h ⊢ with h0
  · exact h
  · cases hfi : find_identifier fuel args { curr := 0, stack := stack_init, stdout := [] } with
    | none => simp [hfi] at h
    | some c =>
      rw [find_identifier_mono _ _ _ _ hfi]
      rw [hfi] at h
      cases c with
      | exited o2 => exact h
      | returned r s =>
        simp only at h ⊢
        split_ifs at h ⊢ with h1
        · exact h
        · cases hpd : parse_declarator fuel args s with
          | none => simp [hpd] at h
          | some x =>
            rw [(parse_declarator_mono_both fuel).1 _ _ _ hpd]
            rw [hpd] at h
            exact h

theorem main_mono_add (fuel k : Nat) (args : List (List Char)) (o : Outcome)
    (h : main fuel args = some o) : main (fuel + k) args = some o := by
  induction k with
  | zero => exact h
  | succ k ih => exact main_mono _ _ _ ih

theorem main_total (args : List (List Char)) :
    ∃ o, main (enough_fuel args) args = some o ∧ defined_outcome args o := by
  unfold main
  split_ifs with h0
  · exact ⟨_, rfl, Or.inr (Or.inl rfl)⟩
  · obtain ⟨c, hc, hcase⟩ := find_identifier_total (enough_fuel args) args
      { curr := 0, stack := stack_init, stdout := [] } (by simp [stack_init])
      (by simp only [enough_fuel]; omega) (by simp only [enough_fuel]; omega)
    rw [hc]
    rcases hcase with ⟨s2, h1, h2⟩ | ⟨s2, h1, h2, h3⟩ | ⟨x, hx, h1⟩ | h1
    · subst h1
      simp only at h2 ⊢
      rw [if_pos trivial, h2]
      exact ⟨_, rfl, Or.inr (Or.inr (Or.inl rfl))⟩
    · subst h1
      simp only [stack_init, List.length_nil] at h3 ⊢
      rw [if_neg (by decide)]
      obtain ⟨r, hr, _⟩ := (parse_declarator_total_both (enough_fuel args)).1 args s2
        (by simp only [enough_fuel]; omega)
      rw [hr]
      obtain ⟨rd, s3⟩ := r
      simp only
      split_ifs with h4
      · cases hw : args[s3.curr]? with
        | none => exact ⟨_, rfl, Or.inr (Or.inr (Or.inr (Or.inr (Or.inr (Or.inl ⟨_, rfl⟩)))))⟩
        | some w =>
          exact ⟨_, rfl, Or.inr (Or.inr (Or.inr (Or.inr (Or.inr (Or.inr
            ⟨w, List.getElem?_mem hw, _, rfl⟩)))))⟩
      · exact ⟨_, rfl, Or.inl ⟨_, rfl⟩⟩
    · subst h1
      exact ⟨_, rfl, Or.inr (Or.inr (Or.inr (Or.inl ⟨x, hx, rfl⟩)))⟩
    · subst h1
      exact ⟨_, rfl, Or.inr (Or.inr (Or.inr (Or.inr (Or.inl rfl))))⟩

/-- C3: on every argument list the run terminates: with `enough_fuel args` or more the
result is the same defined outcome, a line on `stdout` or one of the diagnostics. The
loops over the input end before the cursor passes the end of the input (the search and
`handle_function` return within the number of words left), and `parse_declarator` from
any state returns within a bound given by the stack size, with a stack that is no
larger than the one it was called on. -/
theorem C3_parse_terminates (args : List (List Char)) (fuel : Nat)
    (hfuel : enough_fuel args ≤ fuel) :
    (∃ o, main fuel args = some o ∧ main (enough_fuel args) args = some o ∧
      defined_outcome args o) ∧
    (∀ s : State, s.stack.length ≤ MAXTOKENLEN →
      ∃ c, find_identifier (args.length + 1 - s.curr + 1) args s = some c) ∧
    (∀ s : State, ∃ r, handle_function (args.length - s.curr + 1) args s = some r) ∧
    (∀ s : State, 2 * s.stack.length + args.length + 3 ≤ fuel →
      ∃ r, parse_declarator fuel args s = some r ∧ r.2.stack.length ≤ s.stack.length) := by
  refine ⟨?_, ?_, ?_, ?_⟩
  · obtain ⟨o, ho, hdef⟩ := main_total args
    obtain ⟨k, rfl⟩ : ∃ k, fuel = enough_fuel args + k := ⟨fuel - enough_fuel args, by omega⟩
    exact ⟨o, main_mono_add _ k _ _ ho, ho, hdef⟩
  · intro s hcap
    obtain ⟨c, hc, _⟩ := find_identifier_total (args.length + 1 - s.curr + 1) args s hcap
      (by omega) (by omega)
    exact ⟨c, hc⟩
  · intro s
    exact handle_function_total _ args s (by omega) (by omega)
  · exact (parse_declarator_total_both fuel).1 args

/-- An instance of C3: `int ( * x ) ( )` with fuel 40. -/
theorem C3_parse_terminates_witness :
    ∃ o, main 40 ["int".toList, "(".toList, "*".toList, "x".toList, ")".toList, "(".toList,
        ")".toList] = some o ∧
      main (enough_fuel ["int".toList, "(".toList, "*".toList, "x".toList, ")".toList,
        "(".toList, ")".toList])
        ["int".toList, "(".toList, "*".toList, "x".toList, ")".toList, "(".toList,
        ")".toList] = some o ∧
      defined_outcome ["int".toList, "(".toList, "*".toList, "x".toList, ")".toList,
        "(".toList, ")".toList] o :=
  (C3_parse_terminates ["int".toList, "(".toList, "*".toList, "x".toList, ")".toList,
    "(".toList, ")".toList] 40 (by decide)).1

/-! ## The claims on the classifier -/

/-- C4: a present word is classified GroupOpen exactly when it is `(`, GroupClose
exactly when it is `)`, ArrayOpen exactly when it is `[`, ArrayClose exactly when it is
`]`, Qualifier exactly when it is one of `const`, `unsigned`, `volatile`, `*`, and Type
exactly when it is one of the six type keywords, whatever its length; an absent word is
classified Unknown. -/
theorem C4_reserved_words_classified_exactly (w : List Char) :
    (classify_string (some w) = TOKEN_FUNC_BEGIN ↔ w = "(".toList) ∧
    (classify_string (some w) = TOKEN_FUNC_END ↔ w = ")".toList) ∧
    (classify_string (some w) = TOKEN_ARRAY_BEGIN ↔ w = "[".toList) ∧
    (classify_string (some w) = TOKEN_ARRAY_END ↔ w = "]".toList) ∧
    (classify_string (some w) = TOKEN_QUALIFIER ↔
      (w = "const".toList ∨ w = "unsigned".toList ∨ w = "volatile".toList ∨ w = "*".toList)) ∧
    (classify_string (some w) = TOKEN_TYPE ↔
      (w = "int".toList ∨ w = "long".toList ∨ w = "char".toList ∨ w = "float".toList ∨
        w = "double".toList ∨ w = "void".toList)) ∧
    classify_string none = TOKEN_UNKNOWN := by
  obtain ⟨h1, h2, h3, h4, h5, h6⟩ := classify_string_reserved_cases w
  refine ⟨h1, h2, h3, h4, ?_, ?_, rfl⟩
  · rw [h5]
    simp [qualifier_words]
  · rw [h6]
    simp [type_words]

/-- What the classifier does with a word that is not reserved: it is an identifier
exactly when `valid_identifier` accepts it, and unknown otherwise. -/
theorem classify_string_not_reserved (w : List Char) (hw : w ∉ reserved_words) :
    (classify_string (some w) = TOKEN_IDENTIFIER ↔ valid_identifier w = true) ∧
    (classify_string (some w) = TOKEN_UNKNOWN ↔ valid_identifier w = false) := by
  simp only [reserved_words, List.mem_append, List.mem_cons, List.mem_singleton,
    List.not_mem_nil, or_false, not_or] at hw
  obtain ⟨⟨⟨h1, h2, h3, h4⟩, hq⟩, ht⟩ := hw
  rw [classify_string_some]
  simp only [h1, h2, h3, h4, hq, ht, if_false]
  cases valid_identifier w <;> simp

/-- C5 (the code departs from the claim): the empty word is not reserved, yet
`classify_string` returns Identifier for it, not Unknown, and the program run on the
single empty word prints " is a " and exits with status 0. -/
theorem C5_empty_word_classified_identifier :
    ([] : List Char) ∉ reserved_words ∧
    classify_string (some []) = TOKEN_IDENTIFIER ∧
    main (enough_fuel [[]]) [[]] =
      some { status := EXIT_SUCCESS, stdout := " is a \n".toList, stderr := [] } := by
  decide

/-! ## The claims on the identifier search -/

/-- C6: when the first word that is an identifier or unknown is an unknown word `w`
standing after at most 128 other words, `find_identifier` ends the process there: the
exit status is 1, `stderr` holds "cdecl: internal error: unkown token type for ", the
word `w` and a newline, and nothing has been written to `stdout`. -/
theorem C6_unknown_word_stops_the_search (L R : List (List Char)) (w : List Char)
    (fuel : Nat) (hL : ∀ x ∈ L, is_pushed x) (hlen : L.length ≤ 128)
    (hw : classify_string (some w) = TOKEN_UNKNOWN) (hfuel : L.length < fuel) :
    find_identifier fuel (L ++ w :: R) { curr := 0, stack := stack_init, stdout := [] } =
      some (.exited
        { status := 1, stdout := [],
          stderr := "cdecl: internal error: unkown token type for ".toList ++ w ++
            "\n".toList }) := by
  obtain ⟨k, rfl⟩ : ∃ k, fuel = (k + 1) + L.length := ⟨fuel - L.length - 1, by omega⟩
  rw [find_identifier_scan (L ++ w :: R) [] L 0 stack_init (k + 1)
    (fun i hi => by simp [List.getElem?_append_left hi]) hL (by simpa [stack_init] using hlen)]
  have hcur : (L ++ w :: R)[0 + L.length]? = some w := by
    rw [Nat.zero_add, List.getElem?_append_right (Nat.le_refl _)]
    simp
  rw [find_identifier_unknown k _ _ w hcur hw]
  rfl

/-- An instance of C6: `char* x`. -/
theorem C6_unknown_word_stops_the_search_witness :
    find_identifier 1 ["char*".toList, "x".toList]
        { curr := 0, stack := stack_init, stdout := [] } =
      some (.exited
        { status := 1, stdout := [],
          stderr := "cdecl: internal error: unkown token type for ".toList ++
            "char*".toList ++ "\n".toList }) :=
  C6_unknown_word_stops_the_search [] ["x".toList] "char*".toList 1
    (by decide) (by decide) (by decide) (by decide)

/-- C7 (counterexample): in `x @ int` the word `@` is unknown, but the run does not end
with the unknown-token diagnostic: it prints "x is a " and a newline and exits with
status 0. -/
theorem C7_unknown_word_after_identifier_accepted :
    classify_string (some "@".toList) = TOKEN_UNKNOWN ∧
    main (enough_fuel ["x".toList, "@".toList, "int".toList])
        ["x".toList, "@".toList, "int".toList] =
      some { status := EXIT_SUCCESS, stdout := "x is a \n".toList, stderr := [] } ∧
    main (enough_fuel ["x".toList, "@".toList, "int".toList])
        ["x".toList, "@".toList, "int".toList] ≠
      some (fatal "internal error: unkown token type for @".toList []) ∧
    main (enough_fuel ["x".toList, "@".toList, "int".toList])
        ["x".toList, "@".toList, "int".toList] ≠
      some { status := 1, stdout := [],
             stderr := "cdecl: internal error: unkown token type for @\n".toList } := by
  decide

/-- C7 (amended): when the first word that is an identifier or unknown is an unknown
word `w` standing after at most 128 other words, the run fails with the unknown-token
diagnostic naming `w`: the exit status is 1, `stderr` holds
"cdecl: internal error: unkown token type for ", the word `w` and a newline, and
`stdout` is empty. -/
theorem C7_unknown_word_before_identifier_fatal (L R : List (List Char)) (w : List Char)
    (fuel : Nat) (hL : ∀ x ∈ L, is_pushed x) (hlen : L.length ≤ 128)
    (hw : classify_string (some w) = TOKEN_UNKNOWN) (hfuel : L.length < fuel) :
    main fuel (L ++ w :: R) =
      some { status := 1, stdout := [],
             stderr := "cdecl: internal error: unkown token type for ".toList ++ w ++
               "\n".toList } := by
  obtain ⟨k, rfl⟩ : ∃ k, fuel = (k + 1) + L.length := ⟨fuel - L.length - 1, by omega⟩
  have hscan := find_identifier_scan (L ++ w :: R) [] L 0 stack_init (k + 1)
    (fun i hi => by simp [List.getElem?_append_left hi]) hL (by simpa [stack_init] using hlen)
  have hcur : (L ++ w :: R)[0 + L.length]? = some w := by
    rw [Nat.zero_add, List.getElem?_append_right (Nat.le_refl _)]
    simp
  rw [find_identifier_unknown k _ _ w hcur hw] at hscan
  unfold main
  rw [if_neg (by simp), hscan]
  rfl

/-- An instance of the amended C7: `int @ x`. -/
theorem C7_unknown_word_before_identifier_fatal_witness :
    main 2 ["int".toList, "@".toList, "x".toList] =
      some { status := 1, stdout := [],
             stderr := "cdecl: internal error: unkown token type for ".toList ++
               "@".toList ++ "\n".toList } :=
  C7_unknown_word_before_identifier_fatal ["int".toList] ["x".toList] "@".toList 2
    (by decide) (by decide) (by decide) (by decide)

/-- C8 (counterexample): on the empty word list `main` does not report a missing
identifier: it prints the usage line on `stderr` and exits with status 1 before the
search is started. -/
theorem C8_empty_word_list_gets_usage :
    main (enough_fuel []) [] =
      some { status := EXIT_FAILURE, stdout := [],
             stderr := "Usage: cdecl <declaration>\n".toList } ∧
    main (enough_fuel []) [] ≠
      some (fatal "invalid declaration: no identifier".toList []) ∧
    main (enough_fuel []) [] ≠
      some { status := 1, stdout := [],
             stderr := "cdecl: invalid declaration: no identifier\n".toList } := by
  decide

/-- C8 (amended): on at most 128 words none of which is an identifier or unknown, the
search pushes every word, reaches the end of the input and returns -1 with nothing
written; when there is at least one word, the run then fails with the
missing-identifier diagnostic: the exit status is 1, `stderr` holds
"cdecl: invalid declaration: no identifier" and a newline, and `stdout` is empty. -/
theorem C8_no_identifier_reported (args : List (List Char)) (fuel : Nat)
    (hlen : args.length ≤ 128) (hall : ∀ w ∈ args, is_pushed w)
    (hfuel : args.length < fuel) :
    find_identifier fuel args { curr := 0, stack := stack_init, stdout := [] } =
      some (.returned (-1)
        { curr := args.length, stack := (args.map word_token).reverse, stdout := [] }) ∧
    (args ≠ [] →
      main fuel args =
        some { status := 1, stdout := [],
               stderr := "cdecl: invalid declaration: no identifier\n".toList }) := by
  obtain ⟨k, rfl⟩ : ∃ k, fuel = (k + 1) + args.length := ⟨fuel - args.length - 1, by omega⟩
  have hscan := find_identifier_scan args [] args 0 stack_init (k + 1)
    (fun i _ => by simp) hall (by simpa [stack_init] using hlen)
  have hcur : args[0 + args.length]? = none := List.getElem?_eq_none (by omega)
  rw [find_identifier_end k _ _ hcur] at hscan
  simp only [Nat.zero_add, stack_init, List.append_nil] at hscan
  refine ⟨hscan, ?_⟩
  intro hne
  unfold main
  have hlen0 : ¬ args.length + 1 = 1 := by
    cases args with
    | nil => exact absurd rfl hne
    | cons a t => simp
  rw [if_neg hlen0]
  simp only [stack_init]
  rw [hscan]
  rfl

/-- An instance of the amended C8: the single word `int`. -/
theorem C8_no_identifier_reported_witness :
    find_identifier 2 ["int".toList] { curr := 0, stack := stack_init, stdout := [] } =
      some (.returned (-1)
        { curr := ["int".toList].length, stack := (["int".toList].map word_token).reverse,
          stdout := [] }) ∧
    (["int".toList] ≠ [] →
      main 2 ["int".toList] =
        some { status := 1, stdout := [],
               stderr := "cdecl: invalid declaration: no identifier\n".toList }) :=
  C8_no_identifier_reported ["int".toList] 2 (by decide) (by decide) (by decide)


/-! ## The claims on the declarator parser -/

/-- C2 (the code departs from the claim): in `int ( * x ) [ abc ]` the recursive
declarator level called for the group meets a non-numeric array size and returns -1,
and in `int ( ( * x )` it meets a stack `(` with no `)` left and returns -1; the caller
drops that status (line 219), so both runs print "x is a pointer to int " and a newline
and exit with status 0. The runs are given the fuel of `enough_fuel`. -/
theorem C2_nested_failure_reported_as_success :
    parse_declarator 20
        ["int".toList, "(".toList, "*".toList, "x".toList, ")".toList, "[".toList,
          "abc".toList, "]".toList]
        { curr := 4, stack := [⟨TOKEN_TYPE, "int".toList⟩],
          stdout := "x is a pointer to ".toList } =
      some (-1, { curr := 6, stack := [⟨TOKEN_TYPE, "int".toList⟩],
                  stdout := "x is a pointer to ".toList }) ∧
    main 27
        ["int".toList, "(".toList, "*".toList, "x".toList, ")".toList, "[".toList,
          "abc".toList, "]".toList] =
      some { status := EXIT_SUCCESS, stdout := "x is a pointer to int \n".toList,
             stderr := [] } ∧
    parse_declarator 20
        ["int".toList, "(".toList, "(".toList, "*".toList, "x".toList, ")".toList]
        { curr := 5, stack := [⟨TOKEN_FUNC_BEGIN, "(".toList⟩, ⟨TOKEN_TYPE, "int".toList⟩],
          stdout := "x is a pointer to ".toList } =
      some (-1, { curr := 6, stack := [⟨TOKEN_TYPE, "int".toList⟩],
                  stdout := "x is a pointer to ".toList }) ∧
    main 21 ["int".toList, "(".toList, "(".toList, "*".toList, "x".toList, ")".toList] =
      some { status := EXIT_SUCCESS, stdout := "x is a pointer to int \n".toList,
             stderr := [] } := by
  decide

/-- When `handle_array` accepts: the word after `[` is `]`, or it is made of digits and
the word after it is `]`. In every other case it returns -1 with the cursor on the
word that did not fit, or at the end of the input. -/
theorem handle_array_accepts_iff (chunks : List (List Char)) (s : State) :
    ((handle_array chunks s).1 = 0 ↔
      (chunks[s.curr + 1]? = some "]".toList ∨
        ∃ size, chunks[s.curr + 1]? = some size ∧ size.all isdigit = true ∧
          chunks[s.curr + 2]? = some "]".toList)) ∧
    ((handle_array chunks s).1 ≠ 0 →
      (handle_array chunks s).1 = -1 ∧
      (chunks[s.curr + 1]? = none ∧ (handle_array chunks s).2.curr = s.curr + 1 ∨
       (∃ size, chunks[s.curr + 1]? = some size ∧ size ≠ "]".toList ∧
          size.all isdigit = false ∧ (handle_array chunks s).2.curr = s.curr + 1) ∨
       (∃ size, chunks[s.curr + 1]? = some size ∧ size ≠ "]".toList ∧
          size.all isdigit = true ∧ chunks[s.curr + 2]? ≠ some "]".toList ∧
          (handle_array chunks s).2.curr = s.curr + 2))) := by
  have hend : ∀ o : Option (List Char),
      classify_string o = TOKEN_ARRAY_END ↔ o = some "]".toList := by
    intro o
    cases o with
    | none => simp [classify_string]
    | some w => simpa using (classify_string_reserved_cases w).2.2.2.1
  unfold handle_array
  cases h1 : chunks[s.curr + 1]? with
  | none => simp
  | some size =>
    generalize "]".toList = rb at hend ⊢
    simp only [hend, Option.some.injEq, ne_eq]
    by_cases h2 : size = rb
    · simp [h2]
    · cases h3 : size.all isdigit with
      | true =>
        have h3a : ∀ x ∈ size, isdigit x = true := by simpa using h3
        by_cases h4 : chunks[s.curr + 2]? = some rb
        · simpa [h2, h4] using h3a
        · simpa [h2, h4] using h3a
      | false =>
        have h3a : ∃ x ∈ size, isdigit x = false := by simpa using h3
        simp [h2]
        refine ⟨fun hall => ?_, h3a⟩
        obtain ⟨x, hx, hxf⟩ := h3a
        rw [hall x hx] at hxf
        cases hxf

/-- C9 (the code departs from the claim): in `char ( * p ) [ 10` the cursor reaches the
`[` in the declarator level called for the group; `handle_array` rejects the suffix
(the input ends where `]` should be), but the status of that level is dropped by its
caller, so the run prints "p is a pointer to char " and exits with status 0 in place of
a syntax error. The run is given the fuel of `enough_fuel`. -/
theorem C9_rejected_array_suffix_reported_as_success :
    handle_array
        ["char".toList, "(".toList, "*".toList, "p".toList, ")".toList, "[".toList,
          "10".toList]
        { curr := 5, stack := [⟨TOKEN_TYPE, "char".toList⟩],
          stdout := "p is a pointer to ".toList } =
      (-1, { curr := 7, stack := [⟨TOKEN_TYPE, "char".toList⟩],
             stdout := "p is a pointer to ".toList }) ∧
    main 24
        ["char".toList, "(".toList, "*".toList, "p".toList, ")".toList, "[".toList,
          "10".toList] =
      some { status := EXIT_SUCCESS, stdout := "p is a pointer to char \n".toList,
             stderr := [] } := by
  decide

/-- C10: whenever `handle_array` accepts a suffix whose size word `N` is not `]`, the
text it adds to `stdout` is "array [", then `N` character for character, then "] of ";
`N` is made of digits and the cursor ends after the closing `]`. -/
theorem C10_array_size_rendered_verbatim (chunks : List (List Char)) (s : State)
    (N : List Char) (hN : chunks[s.curr + 1]? = some N) (hsized : N ≠ "]".toList)
    (hacc : (handle_array chunks s).1 = 0) :
    (handle_array chunks s).2.stdout = s.stdout ++ "array [".toList ++ N ++ "] of ".toList ∧
    (handle_array chunks s).2.curr = s.curr + 3 ∧
    N.all isdigit = true ∧ chunks[s.curr + 2]? = some "]".toList := by
  have hend : ∀ o : Option (List Char),
      classify_string o = TOKEN_ARRAY_END ↔ o = some "]".toList := by
    intro o
    cases o with
    | none => simp [classify_string]
    | some w => simpa using (classify_string_reserved_cases w).2.2.2.1
  unfold handle_array at hacc ⊢
  generalize "]".toList = rb at hend hsized hacc ⊢
  simp only [hN, hend, Option.some.injEq, if_neg hsized, ne_eq] at hacc ⊢
  cases h3 : N.all isdigit with
  | true =>
    rw [h3] at hacc
    by_cases h4 : chunks[s.curr + 2]? = some rb
    · simp [h4]
    · simp [h4] at hacc
  | false =>
    rw [h3] at hacc
    simp at hacc

/-- An instance of C10: the suffix `[ 007 ]` in `x [ 007 ]`. -/
theorem C10_array_size_rendered_verbatim_witness :
    (handle_array ["x".toList, "[".toList, "007".toList, "]".toList]
        { curr := 1, stack := [], stdout := "x is a ".toList }).2.stdout =
      "x is a ".toList ++ "array [".toList ++ "007".toList ++ "] of ".toList ∧
    (handle_array ["x".toList, "[".toList, "007".toList, "]".toList]
        { curr := 1, stack := [], stdout := "x is a ".toList }).2.curr = 1 + 3 ∧
    "007".toList.all isdigit = true ∧
    ["x".toList, "[".toList, "007".toList, "]".toList][1 + 2]? = some "]".toList :=
  C10_array_size_rendered_verbatim ["x".toList, "[".toList, "007".toList, "]".toList]
    { curr := 1, stack := [], stdout := "x is a ".toList } "007".toList
    (by decide) (by decide) (by decide)


/-! ## The claims on the token stack -/

theorem stack_push_ok (stack : token_stack) (t : token) (h : stack.length < MAXTOKENLEN) :
    stack_push stack t = (0, t :: stack) := by
  unfold stack_push
  rw [if_neg (Nat.ne_of_lt h)]

theorem push_all_ok (ts : List token) :
    ∀ stack : token_stack, stack.length + ts.length ≤ MAXTOKENLEN →
      push_all stack ts = (0, ts.reverse ++ stack) := by
  induction ts with
  | nil => intro stack _; rfl
  | cons t ts ih =>
    intro stack h
    simp only [List.length_cons] at h
    rw [push_all, stack_push_ok stack t (by omega)]
    simp only
    rw [if_neg (by decide), ih (t :: stack) (by simp only [List.length_cons]; omega)]
    simp

theorem pop_n_ok (ts : List token) :
    ∀ (stack : token_stack) (el : token),
      pop_n ts.length (ts ++ stack) el = (0, stack, ts) := by
  induction ts with
  | nil => intro stack el; rfl
  | cons t ts ih =>
    intro stack el
    simp only [List.length_cons, List.cons_append, pop_n, stack_pop]
    rw [if_neg (by decide), ih stack t]

/-- C15: on a stack holding fewer than 128 tokens `stack_push` succeeds, and a
`stack_pop` right after it returns the pushed token, kind and text, and leaves the stack
as it was before the push. More generally, pushing `ts` (as long as the capacity allows)
and popping as many times gives back the tokens of `ts` last one first and the stack
as it was. -/
theorem C15_push_then_pop_is_lifo (stack : token_stack) (t el : token)
    (hsize : stack.length < 128) :
    stack_push stack t = (0, t :: stack) ∧
    stack_pop (stack_push stack t).2 el = (0, stack, t) ∧
    (∀ ts : List token, stack.length + ts.length ≤ 128 →
      push_all stack ts = (0, ts.reverse ++ stack) ∧
      pop_n ts.length (push_all stack ts).2 el = (0, stack, ts.reverse)) := by
  have hpush := stack_push_ok stack t hsize
  refine ⟨hpush, ?_, ?_⟩
  · rw [hpush]
    rfl
  · intro ts hts
    have hall := push_all_ok ts stack hts
    refine ⟨hall, ?_⟩
    rw [hall]
    have := pop_n_ok ts.reverse stack el
    rw [List.length_reverse] at this
    exact this

/-- An instance of C15: pushing `int` on the stack holding `*`, then `const` and `(`. -/
theorem C15_push_then_pop_is_lifo_witness :
    stack_push [⟨TOKEN_QUALIFIER, "*".toList⟩] ⟨TOKEN_TYPE, "int".toList⟩ =
      (0, [⟨TOKEN_TYPE, "int".toList⟩, ⟨TOKEN_QUALIFIER, "*".toList⟩]) ∧
    stack_pop (stack_push [⟨TOKEN_QUALIFIER, "*".toList⟩] ⟨TOKEN_TYPE, "int".toList⟩).2
        token_uninit =
      (0, [⟨TOKEN_QUALIFIER, "*".toList⟩], ⟨TOKEN_TYPE, "int".toList⟩) ∧
    (∀ ts : List token, [(⟨TOKEN_QUALIFIER, "*".toList⟩ : token)].length + ts.length ≤ 128 →
      push_all [⟨TOKEN_QUALIFIER, "*".toList⟩] ts =
        (0, ts.reverse ++ [⟨TOKEN_QUALIFIER, "*".toList⟩]) ∧
      pop_n ts.length (push_all [⟨TOKEN_QUALIFIER, "*".toList⟩] ts).2 token_uninit =
        (0, [⟨TOKEN_QUALIFIER, "*".toList⟩], ts.reverse)) :=
  C15_push_then_pop_is_lifo [⟨TOKEN_QUALIFIER, "*".toList⟩] ⟨TOKEN_TYPE, "int".toList⟩
    token_uninit (by decide)

/-- C16: `stack_pop` on an absent or on an empty stack returns -1, leaves the stack as
it is (of size 0 when present) and does not write to the token of the caller; on a
stack that holds a token it returns 0 and the size goes down by exactly one. -/
theorem C16_pop_signals_empty (top el : token) (rest : token_stack) (elp : Option token) :
    stack_pop_ptr none elp = (-1, none, elp) ∧
    stack_pop_ptr (some []) elp = (-1, some [], elp) ∧
    stack_pop [] el = (-1, [], el) ∧
    stack_pop_ptr (some (top :: rest)) elp = (0, some rest, elp.map (fun _ => top)) ∧
    stack_pop (top :: rest) el = (0, rest, top) ∧
    (stack_pop (top :: rest) el).1 ≠ -1 ∧
    (stack_pop (top :: rest) el).2.1.length + 1 = (top :: rest).length ∧
    (∀ stack : token_stack,
      stack_pop_ptr (some stack) (some el) =
        ((stack_pop stack el).1, some (stack_pop stack el).2.1,
          some (stack_pop stack el).2.2)) := by
  refine ⟨rfl, rfl, rfl, rfl, rfl, ?_, rfl, ?_⟩
  · simp [stack_pop]
  · intro stack
    cases stack <;> rfl

theorem stack_push_full (stack : token_stack) (t : token) (h : stack.length = MAXTOKENLEN) :
    stack_push stack t = (-1, stack) := by
  unfold stack_push
  rw [if_pos h]

/-- More than 128 pushed words at the start of the input: the search ends the process
at the 129th with the `stack_push` diagnostic. -/
theorem find_identifier_overflow (L R : List (List Char)) (fuel : Nat)
    (hL : ∀ w ∈ L, is_pushed w) (hlen : MAXTOKENLEN < L.length) (hfuel : MAXTOKENLEN < fuel) :
    find_identifier fuel (L ++ R) { curr := 0, stack := stack_init, stdout := [] } =
      some (.exited (pexit "stack_push".toList [])) := by
  have h128 : (L.take MAXTOKENLEN).length = MAXTOKENLEN := by
    rw [List.length_take]
    omega
  obtain ⟨k, rfl⟩ : ∃ k, fuel = (k + 1) + (L.take MAXTOKENLEN).length :=
    ⟨fuel - MAXTOKENLEN - 1, by omega⟩
  rw [find_identifier_scan (L ++ R) [] (L.take MAXTOKENLEN) 0 stack_init (k + 1)
    (fun i hi => by
      rw [h128] at hi
      rw [Nat.zero_add, List.getElem?_take_of_lt hi,
        List.getElem?_append_left (by omega)])
    (fun w hw => hL w (List.mem_of_mem_take hw))
    (by simp only [stack_init, List.length_nil]; omega)]
  have hcur : (L ++ R)[0 + (L.take MAXTOKENLEN).length]? = some (L.get ⟨MAXTOKENLEN, hlen⟩) := by
    rw [Nat.zero_add, h128, List.getElem?_append_left hlen]
    exact List.getElem?_eq_getElem hlen
  rw [find_identifier_full k _ _ _ hcur (hL _ (List.get_mem L MAXTOKENLEN hlen))
    (by simp [stack_init]; omega)]

theorem main_overflow (L R : List (List Char)) (fuel : Nat)
    (hL : ∀ w ∈ L, is_pushed w) (hlen : MAXTOKENLEN < L.length) (hfuel : MAXTOKENLEN < fuel) :
    main fuel (L ++ R) = some (pexit "stack_push".toList []) := by
  unfold main
  rw [if_neg (by simp only [List.length_append]; omega),
    find_identifier_overflow L R fuel hL hlen hfuel]

/-- C17 (counterexample): on a stack that holds 128 tokens `stack_push` returns -1 and
does not add the token, and a declaration with 129 `*` before its identifier ends with
the `stack_push` diagnostic and status 1. -/
theorem C17_push_refused_at_128 :
    stack_push (List.replicate 128 ⟨TOKEN_QUALIFIER, "*".toList⟩)
        ⟨TOKEN_TYPE, "int".toList⟩ =
      (-1, List.replicate 128 ⟨TOKEN_QUALIFIER, "*".toList⟩) ∧
    main 130 (List.replicate 129 "*".toList ++ ["x".toList]) =
      some { status := EXIT_FAILURE, stdout := [],
             stderr := "stack_push: Cannot allocate memory\n".toList } := by
  constructor
  · exact stack_push_full _ _ (by simp [MAXTOKENLEN])
  · rw [main_overflow (List.replicate 129 "*".toList) ["x".toList] 130
      (fun w hw => by rw [List.eq_of_mem_replicate hw]; decide)
      (by simp [MAXTOKENLEN]) (by decide)]
    decide

/-- C17 (amended): `stack_push` succeeds and puts the token on top when the stack holds
fewer than 128 tokens, and returns -1 leaving the stack as it is when it holds 128.
A declaration with at most 128 words before its identifier gets all of them pushed; one
with more than 128 ends with the `stack_push` diagnostic. -/
theorem C17_stack_capacity_is_128 (L R : List (List Char)) (fuel : Nat)
    (hL : ∀ w ∈ L, is_pushed w) (hfuel : L.length < fuel) :
    (∀ (stack : token_stack) (t : token), stack.length < 128 →
      stack_push stack t = (0, t :: stack)) ∧
    (∀ (stack : token_stack) (t : token), stack.length = 128 →
      stack_push stack t = (-1, stack)) ∧
    (L.length ≤ 128 → ∀ id : List Char, classify_string (some id) = TOKEN_IDENTIFIER →
      find_identifier fuel (L ++ id :: R) { curr := 0, stack := stack_init, stdout := [] } =
        some (.returned 0 { curr := L.length, stack := (L.map word_token).reverse,
                            stdout := id ++ " is a ".toList })) ∧
    (128 < L.length → main fuel (L ++ R) = some (pexit "stack_push".toList [])) := by
  refine ⟨fun stack t h => stack_push_ok stack t h, fun stack t h => stack_push_full stack t h,
    ?_, ?_⟩
  · intro hlen id hid
    exact find_identifier_left_context L R id fuel hid hlen hL hfuel
  · intro hlen
    exact main_overflow L R fuel hL hlen (by simp only [MAXTOKENLEN]; omega)

/-- An instance of the amended C17: 129 `*` before the identifier `x`. -/
theorem C17_stack_capacity_is_128_witness :
    main 130 (List.replicate 129 "*".toList ++ ["x".toList]) =
      some (pexit "stack_push".toList []) :=
  (C17_stack_capacity_is_128 (List.replicate 129 "*".toList) ["x".toList] 130
    (fun w hw => by rw [List.eq_of_mem_replicate hw]; decide)
    (by simp)).2.2.2 (by simp)

/-! ## The words left of the identifier -/

theorem is_pushed_reserved (w : List Char) (h : is_pushed w) : w ∈ reserved_words := by
  by_contra hn
  obtain ⟨h1, h2⟩ := classify_string_not_reserved w hn
  obtain ⟨hi, hu⟩ := h
  cases hv : valid_identifier w with
  | true => exact hi (h1.2 hv)
  | false => exact hu (h2.2 hv)

theorem reserved_words_short : ∀ w ∈ reserved_words, w.length ≤ MAXTOKENLEN - 1 := by
  decide

/-- A pushed word is stored whole: the copy into the token never cuts it. -/
theorem word_token_of_pushed (w : List Char) (h : is_pushed w) :
    word_token w = { type := classify_string (some w), string := w } := by
  unfold word_token
  rw [List.take_of_length_le (reserved_words_short w (is_pushed_reserved w h))]

/-- C19: when the first word that is an identifier or unknown is an identifier at
index `i` with `i ≤ 128`, `find_identifier` returns 0, has written exactly that word and
" is a ", leaves the cursor at `i`, and the stack holds exactly the `i` words before the
identifier, the last of them on top, each with its classification as kind and the word
itself as text. -/
theorem C19_search_stacks_the_left_context (L R : List (List Char)) (id : List Char)
    (fuel : Nat) (hid : classify_string (some id) = TOKEN_IDENTIFIER)
    (hlen : L.length ≤ 128) (hL : ∀ w ∈ L, is_pushed w) (hfuel : L.length < fuel) :
    find_identifier fuel (L ++ id :: R) { curr := 0, stack := stack_init, stdout := [] } =
      some (.returned 0
        { curr := L.length,
          stack := (L.map (fun w => ({ type := classify_string (some w), string := w } : token))).reverse,
          stdout := id ++ " is a ".toList }) := by
  rw [find_identifier_left_context L R id fuel hid hlen hL hfuel]
  have hmap : L.map word_token =
      L.map (fun w => ({ type := classify_string (some w), string := w } : token)) :=
    List.map_congr_left (fun w hw => word_token_of_pushed w (hL w hw))
  rw [hmap]

/-- An instance of C19: `const char * p [ 3 ]`. -/
theorem C19_search_stacks_the_left_context_witness :
    find_identifier 4
        ["const".toList, "char".toList, "*".toList, "p".toList, "[".toList, "3".toList,
          "]".toList]
        { curr := 0, stack := stack_init, stdout := [] } =
      some (.returned 0
        { curr := 3,
          stack := [⟨TOKEN_QUALIFIER, "*".toList⟩, ⟨TOKEN_TYPE, "char".toList⟩,
            ⟨TOKEN_QUALIFIER, "const".toList⟩],
          stdout := "p is a ".toList }) :=
  C19_search_stacks_the_left_context ["const".toList, "char".toList, "*".toList]
    ["[".toList, "3".toList, "]".toList] "p".toList 4 (by decide) (by decide) (by decide)
    (by decide)

/-! ## Declarations without a suffix and without a group -/

/-- The run on `L id R` when `L` holds at most 128 pushed words, none of them `(`, and
the word after the identifier starts neither an array nor a function suffix: the stack
is printed, top first, and the words of `R` are not looked at again. -/
theorem main_flat (L R : List (List Char)) (id : List Char) (fuel : Nat)
    (hid : classify_string (some id) = TOKEN_IDENTIFIER)
    (hlen : L.length ≤ MAXTOKENLEN) (hL : ∀ w ∈ L, is_pushed w)
    (hno : ∀ w ∈ L, w ≠ "(".toList)
    (hRa : classify_string R.head? ≠ TOKEN_ARRAY_BEGIN)
    (hRf : classify_string R.head? ≠ TOKEN_FUNC_BEGIN)
    (hfuel : L.length + 2 ≤ fuel) :
    main fuel (L ++ id :: R) =
      some { status := EXIT_SUCCESS,
             stdout :=
               (((L.map word_token).reverse.dropWhile is_star).foldl
                 (fun o x => print_token x o)
                 (id ++ " is a ".toList ++
                   pointers_text ((L.map word_token).reverse.takeWhile is_star).length)) ++
               "\n".toList,
             stderr := [] } := by
  have hfind := find_identifier_left_context L R id fuel hid hlen hL (by omega)
  obtain ⟨k, rfl⟩ : ∃ k, fuel = k + 1 := ⟨fuel - 1, by omega⟩
  have hnext : (L ++ id :: R)[L.length + 1]? = R.head? := by
    rw [List.getElem?_append_right (by omega)]
    cases R <;> simp
  have hpd := parse_declarator_no_suffix k (L ++ id :: R)
    { curr := L.length, stack := (L.map word_token).reverse, stdout := id ++ " is a ".toList }
    (by simp only [hnext]; exact hRa) (by simp only [hnext]; exact hRf)
  rw [print_pointers_spec k _ _ _ _ (by simp; omega) (by simpa using hlen)] at hpd
  simp only at hpd
  rw [parse_declarator_loop_flat _ _ _ k _ _
    (by
      have := (List.dropWhile_sublist is_star (l := (L.map word_token).reverse)).length_le
      simp only [List.length_reverse, List.length_map] at this
      omega)
    (by
      intro x hx
      have hx2 := (List.dropWhile_sublist is_star).subset hx
      simp only [List.mem_reverse, List.mem_map] at hx2
      obtain ⟨w, hw, rfl⟩ := hx2
      rw [word_token_of_pushed w (hL w hw)]
      intro h0
      exact hno w hw ((strncmp_short w "(".toList MAXTOKENLEN (by decide)).1 h0))] at hpd
  unfold main
  rw [if_neg (by simp), hfind]
  simp only
  rw [if_neg (by decide), hpd]
  simp only
  rw [if_neg (by decide)]

/-- The run on `L id R` when `L` is made of `*`, `const` and type keywords and the word
after the identifier starts no suffix: the fragments of `L`, last word first. -/
theorem main_simple (L R : List (List Char)) (id : List Char) (fuel : Nat)
    (hid : classify_string (some id) = TOKEN_IDENTIFIER)
    (hlen : L.length ≤ MAXTOKENLEN) (hL : ∀ w ∈ L, w ∈ simple_words)
    (hRa : classify_string R.head? ≠ TOKEN_ARRAY_BEGIN)
    (hRf : classify_string R.head? ≠ TOKEN_FUNC_BEGIN)
    (hfuel : L.length + 2 ≤ fuel) :
    main fuel (L ++ id :: R) =
      some { status := EXIT_SUCCESS,
             stdout := id ++ " is a ".toList ++ (L.reverse.map fragment).flatten ++ "\n".toList,
             stderr := [] } := by
  rw [main_flat L R id fuel hid hlen (fun w hw => (simple_word_facts w (hL w hw)).1)
    (fun w hw h => by
      have := hL w hw
      rw [h] at this
      revert this
      decide) hRa hRf hfuel]
  have hdr := drain_simple L.reverse (id ++ " is a ".toList)
    (fun w hw => hL w (List.mem_reverse.1 hw))
  rw [List.map_reverse word_token L] at hdr
  rw [hdr]

theorem type_word_facts (T : List Char) (hT : T ∈ type_words) :
    T ∈ simple_words ∧ fragment T = T ++ " ".toList ∧
      classify_string (some T) = TOKEN_TYPE := by
  simp only [type_words, List.mem_cons, List.mem_singleton, List.not_mem_nil, or_false] at hT
  rcases hT with h | h | h | h | h | h <;> subst h <;> decide

/-- C11 (counterexample): the input `x int` prints "x is a " and a newline; the type
that follows the identifier is not in the output. -/
theorem C11_type_after_identifier_not_rendered :
    main (enough_fuel ["x".toList, "int".toList]) ["x".toList, "int".toList] =
      some { status := EXIT_SUCCESS, stdout := "x is a \n".toList, stderr := [] } ∧
    main (enough_fuel ["x".toList, "int".toList]) ["x".toList, "int".toList] ≠
      some { status := EXIT_SUCCESS, stdout := "x is a int \n".toList, stderr := [] } := by
  decide

/-- C11 (amended): for an identifier `x` and a type keyword `T`, the input `T x` (the
type before the identifier) is rendered "x is a T " and a newline; the input `x T` is
rendered "x is a " and a newline, without the type. -/
theorem C11_type_before_identifier_rendered (x T : List Char) (fuel : Nat)
    (hx : classify_string (some x) = TOKEN_IDENTIFIER) (hT : T ∈ type_words)
    (hfuel : 3 ≤ fuel) :
    main fuel [T, x] =
      some { status := EXIT_SUCCESS,
             stdout := x ++ " is a ".toList ++ T ++ " \n".toList, stderr := [] } ∧
    main fuel [x, T] =
      some { status := EXIT_SUCCESS, stdout := x ++ " is a \n".toList, stderr := [] } := by
  obtain ⟨hs, hfrag, hcls⟩ := type_word_facts T hT
  constructor
  · have h := main_simple [T] [] x fuel hx (by simp [MAXTOKENLEN]) (by simpa using hs)
      (by decide) (by decide) (by simpa using hfuel)
    simp only [List.singleton_append, List.reverse_singleton, List.map_cons, List.map_nil,
      List.flatten_cons, List.flatten_nil, List.append_nil, hfrag] at h
    rw [h]
    simp
  · have h := main_simple [] [T] x fuel hx (by simp) (by simp)
      (by simp only [List.head?_cons, hcls]; decide)
      (by simp only [List.head?_cons, hcls]; decide) (by simp; omega)
    simp only [List.nil_append, List.reverse_nil, List.map_nil, List.flatten_nil,
      List.append_nil] at h
    rw [h]
    simp

/-- An instance of the amended C11: `char c` and `c char`. -/
theorem C11_type_before_identifier_rendered_witness :
    main 3 ["char".toList, "c".toList] =
      some { status := EXIT_SUCCESS,
             stdout := "c".toList ++ " is a ".toList ++ "char".toList ++ " \n".toList,
             stderr := [] } ∧
    main 3 ["c".toList, "char".toList] =
      some { status := EXIT_SUCCESS, stdout := "c".toList ++ " is a \n".toList,
             stderr := [] } :=
  C11_type_before_identifier_rendered "c".toList "char".toList 3 (by decide) (by decide)
    (by decide)

/-- C12 (counterexample): the input `* x int` prints "x is a pointer to " and a
newline; the `*` before the identifier is rendered, the type after it is not. -/
theorem C12_type_after_pointer_declarator_not_rendered :
    main (enough_fuel ["*".toList, "x".toList, "int".toList])
        ["*".toList, "x".toList, "int".toList] =
      some { status := EXIT_SUCCESS, stdout := "x is a pointer to \n".toList, stderr := [] } ∧
    main (enough_fuel ["*".toList, "x".toList, "int".toList])
        ["*".toList, "x".toList, "int".toList] ≠
      some { status := EXIT_SUCCESS, stdout := "x is a pointer to int \n".toList,
             stderr := [] } := by
  decide

/-- C12 (amended): for an identifier `x`, the input `* x int` is rendered
"x is a pointer to " and a newline: the `*` that precedes the identifier goes through
the stack and gives "pointer to ", and the `int` after the identifier gives nothing.
With the type on the left, `int * x` is rendered "x is a pointer to int " and a
newline. -/
theorem C12_pointer_before_identifier_rendered (x : List Char) (fuel : Nat)
    (hx : classify_string (some x) = TOKEN_IDENTIFIER) (hfuel : 4 ≤ fuel) :
    main fuel ["*".toList, x, "int".toList] =
      some { status := EXIT_SUCCESS, stdout := x ++ " is a pointer to \n".toList,
             stderr := [] } ∧
    main fuel ["int".toList, "*".toList, x] =
      some { status := EXIT_SUCCESS, stdout := x ++ " is a pointer to int \n".toList,
             stderr := [] } := by
  constructor
  · have h := main_simple ["*".toList] ["int".toList] x fuel hx (by decide) (by decide)
      (by decide) (by decide) (by simp; omega)
    simp only [List.singleton_append] at h
    rw [h]
    simp [fragment]
  · have h := main_simple ["int".toList, "*".toList] [] x fuel hx (by decide) (by decide)
      (by decide) (by decide) (by simp; omega)
    simp only [List.cons_append, List.nil_append] at h
    rw [h]
    simp [fragment]

/-- An instance of the amended C12: the identifier `p`. -/
theorem C12_pointer_before_identifier_rendered_witness :
    main 4 ["*".toList, "p".toList, "int".toList] =
      some { status := EXIT_SUCCESS, stdout := "p".toList ++ " is a pointer to \n".toList,
             stderr := [] } ∧
    main 4 ["int".toList, "*".toList, "p".toList] =
      some { status := EXIT_SUCCESS, stdout := "p".toList ++ " is a pointer to int \n".toList,
             stderr := [] } :=
  C12_pointer_before_identifier_rendered "p".toList 4 (by decide) (by decide)

/-- C13 (the code departs from the claim): `unsigned` and `volatile` are stored as
Qualifier tokens, and for a Qualifier token that is neither `const` nor `*`
`print_token` writes nothing; the input `unsigned int x` prints "x is a int " and a
newline, without "unsigned ". -/
theorem C13_unsigned_volatile_print_nothing (out : List Char) :
    word_token "unsigned".toList = ⟨TOKEN_QUALIFIER, "unsigned".toList⟩ ∧
    word_token "volatile".toList = ⟨TOKEN_QUALIFIER, "volatile".toList⟩ ∧
    print_token ⟨TOKEN_QUALIFIER, "unsigned".toList⟩ out = out ∧
    print_token ⟨TOKEN_QUALIFIER, "volatile".toList⟩ out = out ∧
    print_token ⟨TOKEN_TYPE, "int".toList⟩ out = out ++ "int ".toList ∧
    main (enough_fuel ["unsigned".toList, "int".toList, "x".toList])
        ["unsigned".toList, "int".toList, "x".toList] =
      some { status := EXIT_SUCCESS, stdout := "x is a int \n".toList, stderr := [] } := by
  refine ⟨by decide, by decide, ?_, ?_, ?_, by decide⟩
  · rw [print_token_append]
    have : print_token ⟨TOKEN_QUALIFIER, "unsigned".toList⟩ [] = [] := by decide
    rw [this, List.append_nil]
  · rw [print_token_append]
    have : print_token ⟨TOKEN_QUALIFIER, "volatile".toList⟩ [] = [] := by decide
    rw [this, List.append_nil]
  · rw [print_token_append]
    have : print_token ⟨TOKEN_TYPE, "int".toList⟩ [] = "int ".toList := by decide
    rw [this]

/-! ## The function suffix -/

/-- Scanning the words between the parentheses: `handle_function` steps over every
word that is neither `)` nor unknown. -/
theorem handle_function_scan (chunks : List (List Char)) (W : List (List Char)) :
    ∀ (s : State) (fuel : Nat),
      (∀ i, i < W.length → chunks[s.curr + 1 + i]? = W[i]?) →
      (∀ w ∈ W, classify_string (some w) ≠ TOKEN_FUNC_END ∧
        classify_string (some w) ≠ TOKEN_UNKNOWN) →
      handle_function (fuel + W.length) chunks s =
        handle_function fuel chunks { s with curr := s.curr + W.length } := by
  induction W with
  | nil => intro s fuel _ _; rfl
  | cons w W ih =>
    intro s fuel hch hW
    have hw : chunks[s.curr + 1]? = some w := by simpa using hch 0 (by simp)
    obtain ⟨h1, h2⟩ := hW w (List.mem_cons_self _ _)
    simp only [List.length_cons]
    rw [← Nat.add_assoc, handle_function, hw, if_neg h1, if_neg h2]
    have h := ih ⟨s.curr + 1, s.stack, s.stdout⟩ fuel
      (fun i hi => by
        have := hch (i + 1) (by simp only [List.length_cons]; omega)
        rw [show s.curr + 1 + (i + 1) = s.curr + 1 + 1 + i by omega,
          List.getElem?_cons_succ] at this
        exact this)
      (fun x hx => hW x (List.mem_cons_of_mem _ hx))
    rw [h]
    simp only [Nat.add_assoc, Nat.add_comm 1 W.length]

/-- C14 (counterexample): in `x ( 123 )` the word between the parentheses is a number,
which classifies as unknown; `handle_function` returns -1 with the cursor on it and the
run ends with a syntax error near `123`. -/
theorem C14_unknown_word_in_parentheses_rejected :
    classify_string (some "123".toList) = TOKEN_UNKNOWN ∧
    handle_function 4 ["x".toList, "(".toList, "123".toList, ")".toList]
        { curr := 1, stack := [], stdout := "x is a ".toList } =
      some (-1, { curr := 2, stack := [], stdout := "x is a ".toList }) ∧
    main (enough_fuel ["x".toList, "(".toList, "123".toList, ")".toList])
        ["x".toList, "(".toList, "123".toList, ")".toList] =
      some (fatal "syntax error in declaration near 123".toList "x is a ".toList) := by
  decide

/-- C14 (amended): with the cursor on a `(` of the right context followed by words
`W`, none of which is `)` or classifies as unknown: if the next word is `)`, the suffix
is accepted, "a function returning " is written and the cursor ends right after that
`)`; if the next word is unknown or the input ends there, `handle_function` returns -1
with the cursor on that position and nothing written. -/
theorem C14_function_suffix_scan (chunks W : List (List Char)) (s : State) (fuel : Nat)
    (hW : ∀ i, i < W.length → chunks[s.curr + 1 + i]? = W[i]?)
    (hok : ∀ w ∈ W, classify_string (some w) ≠ TOKEN_FUNC_END ∧
      classify_string (some w) ≠ TOKEN_UNKNOWN)
    (hfuel : W.length < fuel) :
    (chunks[s.curr + 1 + W.length]? = some ")".toList →
      handle_function fuel chunks s =
        some (0, { curr := s.curr + W.length + 2, stack := s.stack,
                   stdout := s.stdout ++ "a function returning ".toList })) ∧
    (classify_string chunks[s.curr + 1 + W.length]? = TOKEN_UNKNOWN →
      handle_function fuel chunks s =
        some (-1, { curr := s.curr + W.length + 1, stack := s.stack,
                    stdout := s.stdout })) := by
  obtain ⟨k, rfl⟩ : ∃ k, fuel = (k + 1) + W.length := ⟨fuel - W.length - 1, by omega⟩
  rw [handle_function_scan chunks W s (k + 1) hW hok]
  have hidx : s.curr + W.length + 1 = s.curr + 1 + W.length := by omega
  constructor
  · intro hclose
    rw [handle_function]
    simp only [hidx, hclose]
    rw [if_pos (by decide)]
  · intro hunk
    rw [handle_function]
    simp only [hidx, hunk]
    rw [if_neg (by decide), if_pos trivial]

/-- An instance of the amended C14: `f ( int , char )` is accepted, `f ( int` is not. -/
theorem C14_function_suffix_scan_witness :
    (["f".toList, "(".toList, "int".toList, "c".toList, ")".toList][1 + 1 +
        ["int".toList, "c".toList].length]? = some ")".toList →
      handle_function 3 ["f".toList, "(".toList, "int".toList, "c".toList, ")".toList]
          { curr := 1, stack := [], stdout := "f is a ".toList } =
        some (0, { curr := 1 + ["int".toList, "c".toList].length + 2, stack := [],
                   stdout := "f is a ".toList ++ "a function returning ".toList })) ∧
    (classify_string ["f".toList, "(".toList, "int".toList, "c".toList, ")".toList][1 + 1 +
        ["int".toList, "c".toList].length]? = TOKEN_UNKNOWN →
      handle_function 3 ["f".toList, "(".toList, "int".toList, "c".toList, ")".toList]
          { curr := 1, stack := [], stdout := "f is a ".toList } =
        some (-1, { curr := 1 + ["int".toList, "c".toList].length + 1, stack := [],
                    stdout := "f is a ".toList })) :=
  C14_function_suffix_scan ["f".toList, "(".toList, "int".toList, "c".toList, ")".toList]
    ["int".toList, "c".toList] { curr := 1, stack := [], stdout := "f is a ".toList } 3
    (by decide) (by decide) (by decide)

/-! ## Array suffixes and groups -/

theorem digits_not_bracket (N : List Char) (hd : N.all isdigit = true) : N ≠ "]".toList := by
  intro h
  rw [h] at hd
  revert hd
  decide

theorem classify_array_end (w : List Char) :
    classify_string (some w) = TOKEN_ARRAY_END ↔ w = "]".toList :=
  (classify_string_reserved_cases w).2.2.2.1

/-- The sized array suffix: `[ N ]` with `N` made of digits. -/
theorem handle_array_sized (chunks : List (List Char)) (s : State) (N : List Char)
    (hN : chunks[s.curr + 1]? = some N) (hd : N.all isdigit = true)
    (hclose : chunks[s.curr + 2]? = some "]".toList) :
    handle_array chunks s =
      (0, { curr := s.curr + 3, stack := s.stack,
            stdout := s.stdout ++ "array [".toList ++ N ++ "] of ".toList }) := by
  have hne : ¬ classify_string (some N) = TOKEN_ARRAY_END :=
    fun h => digits_not_bracket N hd ((classify_array_end N).1 h)
  unfold handle_array
  rw [hN]
  simp only
  rw [if_neg hne, hd, hclose]
  rw [if_neg (by decide), if_neg (by decide)]

/-- The unsized array suffix `[ ]`: the cursor stays on the `]`. -/
theorem handle_array_unsized (chunks : List (List Char)) (s : State)
    (hclose : chunks[s.curr + 1]? = some "]".toList) :
    handle_array chunks s =
      (0, { curr := s.curr + 1, stack := s.stack,
            stdout := s.stdout ++ "array [] of ".toList }) := by
  unfold handle_array
  rw [hclose]
  simp only
  rw [if_pos (by decide)]

/-- The drain loop on a `(` token whose `)` is at the cursor: the declarator parser is
called again, its status is dropped and the loop goes on with the state it left. -/
theorem parse_declarator_loop_group (fuel : Nat) (chunks : List (List Char)) (s : State)
    (t top : token) (rest : token_stack) (hs : s.stack = top :: rest)
    (htop : strncmp top.string "(".toList MAXTOKENLEN = 0)
    (hcur : chunks[s.curr]? = some ")".toList) :
    parse_declarator_loop (fuel + 1) chunks s t =
      match parse_declarator fuel chunks { s with stack := rest } with
      | none => none
      | some (_, s) => parse_declarator_loop fuel chunks s top := by
  rw [parse_declarator_loop_succ, hs]
  simp only
  rw [if_pos htop, hcur]
  simp only
  rw [if_neg (by decide)]

/-- A declarator level whose next word is `[` with an accepted array suffix after which
no `(` follows. -/
theorem declarator_suffixes_array (fuel : Nat) (chunks : List (List Char)) (s s2 : State)
    (hopen : classify_string chunks[s.curr + 1]? = TOKEN_ARRAY_BEGIN)
    (harr : handle_array chunks { s with curr := s.curr + 1 } = (0, s2))
    (hnf : classify_string chunks[s2.curr]? ≠ TOKEN_FUNC_BEGIN) :
    declarator_suffixes fuel chunks s = some (0, s2) := by
  unfold declarator_suffixes
  rw [if_pos hopen, harr]
  simp only
  rw [if_neg (by decide), if_neg hnf]

theorem type_token_facts (T : List Char) (hT : T ∈ type_words) :
    is_pushed T ∧ word_token T = ⟨TOKEN_TYPE, T⟩ ∧ is_star ⟨TOKEN_TYPE, T⟩ = false ∧
      strncmp T "(".toList MAXTOKENLEN ≠ 0 := by
  simp only [type_words, List.mem_cons, List.mem_singleton, List.not_mem_nil, or_false] at hT
  rcases hT with h | h | h | h | h | h <;> subst h <;> decide

theorem print_token_type (T out : List Char) :
    print_token ⟨TOKEN_TYPE, T⟩ out = out ++ T ++ " ".toList := by
  unfold print_token
  rw [if_neg (by simp)]

theorem drop_star_then_other (t1 t2 : token) (rest : token_stack)
    (h1 : is_star t1 = true) (h2 : is_star t2 = false) :
    (t1 :: t2 :: rest).dropWhile is_star = t2 :: rest ∧
      ((t1 :: t2 :: rest).takeWhile is_star).length = 1 := by
  simp [List.dropWhile, List.takeWhile, h1, h2]

theorem drop_no_star (t : token) (rest : token_stack) (h : is_star t = false) :
    (t :: rest).dropWhile is_star = t :: rest ∧
      ((t :: rest).takeWhile is_star).length = 0 := by
  simp [List.dropWhile, List.takeWhile, h]

/-- The declarator level entered on the `)` of `( * x )` when `[ N ]` follows and the
stack holds the base type: the array is rendered, then the type. -/
theorem parse_declarator_array_then_type (k : Nat) (T x N out : List Char)
    (hT : T ∈ type_words) (hd : N.all isdigit = true) :
    parse_declarator (k + 3)
        [T, "(".toList, "*".toList, x, ")".toList, "[".toList, N, "]".toList]
        { curr := 4, stack := [⟨TOKEN_TYPE, T⟩], stdout := out } =
      some (0, { curr := 8, stack := [],
                 stdout := out ++ "array [".toList ++ N ++ "] of ".toList ++ T ++
                   " ".toList }) := by
  obtain ⟨_, _, hstarT, hparT⟩ := type_token_facts T hT
  have hsuf := declarator_suffixes_array (k + 2)
    [T, "(".toList, "*".toList, x, ")".toList, "[".toList, N, "]".toList]
    { curr := 4, stack := [⟨TOKEN_TYPE, T⟩], stdout := out }
    { curr := 8, stack := [⟨TOKEN_TYPE, T⟩],
      stdout := out ++ "array [".toList ++ N ++ "] of ".toList }
    (by show classify_string (some "[".toList) = TOKEN_ARRAY_BEGIN; decide)
    (handle_array_sized _ ⟨5, [⟨TOKEN_TYPE, T⟩], out⟩ N rfl hd rfl)
    (by show classify_string none ≠ TOKEN_FUNC_BEGIN; decide)
  obtain ⟨hdrop, htake⟩ := drop_no_star ⟨TOKEN_TYPE, T⟩ [] hstarT
  have hpp := print_pointers_spec (k + 2) 8 [⟨TOKEN_TYPE, T⟩]
    (out ++ "array [".toList ++ N ++ "] of ".toList) token_uninit
    (by simp) (by simp [MAXTOKENLEN])
  rw [hdrop, htake] at hpp
  have hloop := parse_declarator_loop_flat
    [T, "(".toList, "*".toList, x, ")".toList, "[".toList, N, "]".toList] 8
    [⟨TOKEN_TYPE, T⟩] (k + 2)
    (out ++ "array [".toList ++ N ++ "] of ".toList ++ pointers_text 0) token_uninit
    (by simp)
    (by
      intro t ht
      rw [List.mem_singleton] at ht
      rw [ht]
      exact hparT)
  rw [parse_declarator_succ, hsuf]
  simp only
  rw [if_neg (by decide), hpp]
  simp only
  rw [hloop]
  simp only [List.foldl_cons, List.foldl_nil, print_token_type]
  have h0 : pointers_text 0 = [] := rfl
  rw [h0, List.append_nil]

/-- C18: for a type keyword `T`, an identifier `x` and a string of digits `N`, the
input `T ( * x ) [ N ]` exits with status 0 and prints exactly
"x is a pointer to array [N] of T " and a newline: the `(` popped from the stack meets
the `)` at the cursor, the declarator level called for the group renders the array
suffix and then the base type. (That `N` is not empty is not needed.) -/
theorem C18_pointer_to_array_rendered (T x N : List Char) (fuel : Nat)
    (hT : T ∈ type_words) (hx : classify_string (some x) = TOKEN_IDENTIFIER)
    (hd : N.all isdigit = true) (hfuel : 5 ≤ fuel) :
    main fuel [T, "(".toList, "*".toList, x, ")".toList, "[".toList, N, "]".toList] =
      some { status := EXIT_SUCCESS,
             stdout := x ++ " is a pointer to array [".toList ++ N ++ "] of ".toList ++ T ++
               " \n".toList,
             stderr := [] } := by
  obtain ⟨hpT, htokT, hstarT, hparT⟩ := type_token_facts T hT
  obtain ⟨k, rfl⟩ : ∃ k, fuel = k + 5 := ⟨fuel - 5, by omega⟩
  have hfind := find_identifier_left_context [T, "(".toList, "*".toList]
    [")".toList, "[".toList, N, "]".toList] x (k + 5) hx (by simp [MAXTOKENLEN])
    (by
      intro w hw
      simp only [List.mem_cons, List.mem_singleton, List.not_mem_nil, or_false] at hw
      rcases hw with h | h | h
      · rw [h]; exact hpT
      · rw [h]; decide
      · rw [h]; decide)
    (by simp)
  have hparen : word_token "(".toList = ⟨TOKEN_FUNC_BEGIN, "(".toList⟩ := by decide
  have hstar : word_token "*".toList = ⟨TOKEN_QUALIFIER, "*".toList⟩ := by decide
  simp only [List.map_cons, List.map_nil, List.reverse_cons, List.reverse_nil,
    List.nil_append, List.singleton_append, List.cons_append, List.length_cons,
    List.length_nil, htokT, hparen, hstar] at hfind
  obtain ⟨hdrop, htake⟩ := drop_star_then_other ⟨TOKEN_QUALIFIER, "*".toList⟩
    ⟨TOKEN_FUNC_BEGIN, "(".toList⟩ [⟨TOKEN_TYPE, T⟩] (by decide) (by decide)
  have hpp := print_pointers_spec (k + 4) 4
    [⟨TOKEN_QUALIFIER, "*".toList⟩, ⟨TOKEN_FUNC_BEGIN, "(".toList⟩, ⟨TOKEN_TYPE, T⟩]
    (x ++ " is a ".toList) token_uninit (by simp) (by simp [MAXTOKENLEN])
  rw [hdrop, htake] at hpp
  have hinner := parse_declarator_array_then_type k T x N
    (x ++ " is a ".toList ++ pointers_text 1) hT hd
  have hgroup := parse_declarator_loop_group (k + 3)
    [T, "(".toList, "*".toList, x, ")".toList, "[".toList, N, "]".toList]
    { curr := 4, stack := [⟨TOKEN_FUNC_BEGIN, "(".toList⟩, ⟨TOKEN_TYPE, T⟩],
      stdout := x ++ " is a ".toList ++ pointers_text 1 }
    token_uninit ⟨TOKEN_FUNC_BEGIN, "(".toList⟩ [⟨TOKEN_TYPE, T⟩] rfl (by decide) rfl
  simp only at hgroup
  rw [hinner] at hgroup
  simp only at hgroup
  rw [parse_declarator_loop_flat _ 8 [] (k + 3) _ _ (by simp) (by simp)] at hgroup
  have hpd := parse_declarator_no_suffix (k + 4)
    [T, "(".toList, "*".toList, x, ")".toList, "[".toList, N, "]".toList]
    { curr := 3,
      stack := [⟨TOKEN_QUALIFIER, "*".toList⟩, ⟨TOKEN_FUNC_BEGIN, "(".toList⟩,
        ⟨TOKEN_TYPE, T⟩],
      stdout := x ++ " is a ".toList }
    (by show classify_string (some ")".toList) ≠ TOKEN_ARRAY_BEGIN; decide)
    (by show classify_string (some ")".toList) ≠ TOKEN_FUNC_BEGIN; decide)
  rw [hpp] at hpd
  simp only at hpd
  rw [hgroup] at hpd
  unfold main
  rw [if_neg (by simp)]
  rw [hfind]
  simp only
  rw [if_neg (by decide), hpd]
  simp only
  rw [if_neg (by decide)]
  have h1 : pointers_text 1 = "pointer to ".toList := by decide
  rw [h1]
  simp

/-- An instance of C18: `int ( * x ) [ 10 ]`. -/
theorem C18_pointer_to_array_rendered_witness :
    main 5 ["int".toList, "(".toList, "*".toList, "x".toList, ")".toList, "[".toList,
        "10".toList, "]".toList] =
      some { status := EXIT_SUCCESS,
             stdout := "x".toList ++ " is a pointer to array [".toList ++ "10".toList ++
               "] of ".toList ++ "int".toList ++ " \n".toList,
             stderr := [] } :=
  C18_pointer_to_array_rendered "int".toList "x".toList "10".toList 5 (by decide) (by decide)
    (by decide) (by decide)

/-- C20 (the code departs from the claim): after an unsized suffix `[ ]` `handle_array`
returns with the cursor on the `]`, while after `[ 10 ]` the cursor is past it. So in
`int ( * x [ ] )` the stack `(` meets `]` in place of `)` and the run ends with a
syntax error near `]`, whereas `int ( * x [ 10 ] )` is accepted. -/
theorem C20_unsized_array_leaves_cursor_on_bracket :
    handle_array
        ["int".toList, "(".toList, "*".toList, "x".toList, "[".toList, "]".toList,
          ")".toList]
        { curr := 4, stack := [], stdout := [] } =
      (0, { curr := 5, stack := [], stdout := "array [] of ".toList }) ∧
    handle_array
        ["int".toList, "(".toList, "*".toList, "x".toList, "[".toList, "10".toList,
          "]".toList, ")".toList]
        { curr := 4, stack := [], stdout := [] } =
      (0, { curr := 7, stack := [], stdout := "array [10] of ".toList }) ∧
    main 24
        ["int".toList, "(".toList, "*".toList, "x".toList, "[".toList, "]".toList,
          ")".toList] =
      some (fatal "syntax error in declaration near ]".toList
        "x is a array [] of pointer to ".toList) ∧
    main 27
        ["int".toList, "(".toList, "*".toList, "x".toList, "[".toList, "10".toList,
          "]".toList, ")".toList] =
      some { status := EXIT_SUCCESS,
             stdout := "x is a array [10] of pointer to int \n".toList, stderr := [] } := by
  decide

/-! ## Words right of the identifier -/

theorem head_starts_no_suffix (R : List (List Char))
    (hR : ∀ w, R.head? = some w → w ≠ "[".toList ∧ w ≠ "(".toList) :
    classify_string R.head? ≠ TOKEN_ARRAY_BEGIN ∧ classify_string R.head? ≠ TOKEN_FUNC_BEGIN := by
  cases h : R.head? with
  | none => exact ⟨by decide, by decide⟩
  | some w =>
    obtain ⟨h1, h2⟩ := hR w h
    exact ⟨fun hc => h1 ((classify_string_reserved_cases w).2.2.1.1 hc),
      fun hc => h2 ((classify_string_reserved_cases w).1.1 hc)⟩

/-- C25: for an input `L id R` where `L` has at most 128 words, none of them `(`, an
identifier or unknown, `id` is an identifier and the first word of `R` is neither `[`
nor `(`, the run exits with status 0 and its output is exactly that of the run on
`L id`: the words of `R` are ignored, whatever they are. -/
theorem C25_words_after_identifier_ignored (L R : List (List Char)) (id : List Char)
    (fuel : Nat) (hid : classify_string (some id) = TOKEN_IDENTIFIER)
    (hlen : L.length ≤ 128) (hL : ∀ w ∈ L, is_pushed w) (hno : ∀ w ∈ L, w ≠ "(".toList)
    (hR : ∀ w, R.head? = some w → w ≠ "[".toList ∧ w ≠ "(".toList)
    (hfuel : L.length + 2 ≤ fuel) :
    main fuel (L ++ id :: R) = main fuel (L ++ [id]) ∧
    ∃ text, main fuel (L ++ id :: R) =
      some { status := EXIT_SUCCESS, stdout := text ++ "\n".toList, stderr := [] } := by
  obtain ⟨hRa, hRf⟩ := head_starts_no_suffix R hR
  have h1 := main_flat L R id fuel hid hlen hL hno hRa hRf hfuel
  have h2 := main_flat L [] id fuel hid hlen hL hno (by decide) (by decide) hfuel
  exact ⟨h1.trans h2.symm, _, h1⟩

/-- An instance of C25: `const int * x @ 12 int` against `const int * x`. -/
theorem C25_words_after_identifier_ignored_witness :
    main 5 (["const".toList, "int".toList, "*".toList] ++
        "x".toList :: ["@".toList, "12".toList, "int".toList]) =
      main 5 (["const".toList, "int".toList, "*".toList] ++ ["x".toList]) ∧
    ∃ text, main 5 (["const".toList, "int".toList, "*".toList] ++
        "x".toList :: ["@".toList, "12".toList, "int".toList]) =
      some { status := EXIT_SUCCESS, stdout := text ++ "\n".toList, stderr := [] } :=
  C25_words_after_identifier_ignored ["const".toList, "int".toList, "*".toList]
    ["@".toList, "12".toList, "int".toList] "x".toList 5 (by decide) (by decide) (by decide)
    (by decide) (by decide) (by decide)

/-! ## The pointer run -/

theorem is_star_iff (x : token) : is_star x = true ↔ x.string = "*".toList := by
  unfold is_star
  rw [decide_eq_true_iff]
  exact strncmp_short x.string "*".toList MAXTOKENLEN (by decide)

theorem star_run_split (stars rest : token_stack)
    (hstars : ∀ x ∈ stars, x.string = "*".toList)
    (hrest : ∀ top below, rest = top :: below → top.string ≠ "*".toList) :
    (stars ++ rest).dropWhile is_star = rest ∧ (stars ++ rest).takeWhile is_star = stars := by
  induction stars with
  | nil =>
    cases rest with
    | nil => exact ⟨rfl, rfl⟩
    | cons top below =>
      have h : is_star top = false := by
        cases hs : is_star top with
        | false => rfl
        | true => exact absurd ((is_star_iff top).1 hs) (hrest top below rfl)
      simp [List.dropWhile, List.takeWhile, h]
  | cons x stars ih =>
    have hx : is_star x = true := (is_star_iff x).2 (hstars x (List.mem_cons_self _ _))
    obtain ⟨h1, h2⟩ := ih (fun y hy => hstars y (List.mem_cons_of_mem _ hy))
    simp [List.dropWhile, List.takeWhile, hx, h1, h2]

/-- C22: on a stack (of at most 128 tokens) whose top `k` tokens have the text `*` and
whose next token, if any, has another text, `print_pointers` writes "pointer to " `k`
times and leaves exactly the tokens below that run: the first token that is not `*`
is pushed back as it was, that push succeeds, and nothing below is changed. -/
theorem C22_print_pointers_takes_the_star_run (stars rest : token_stack) (c fuel : Nat)
    (out : List Char) (t : token)
    (hstars : ∀ x ∈ stars, x.string = "*".toList)
    (hrest : ∀ top below, rest = top :: below → top.string ≠ "*".toList)
    (hcap : (stars ++ rest).length ≤ 128) (hfuel : (stars ++ rest).length ≤ fuel) :
    print_pointers fuel { curr := c, stack := stars ++ rest, stdout := out } t =
      some { curr := c, stack := rest,
             stdout := out ++ (List.replicate stars.length "pointer to ".toList).flatten } ∧
    (∀ top below, rest = top :: below → stack_push below top = (0, top :: below)) := by
  obtain ⟨h1, h2⟩ := star_run_split stars rest hstars hrest
  constructor
  · rw [print_pointers_spec fuel c (stars ++ rest) out t hfuel hcap, h1, h2]
    rfl
  · intro top below hr
    apply stack_push_ok
    rw [hr] at hcap
    simp only [List.length_append, List.length_cons, MAXTOKENLEN] at hcap ⊢
    omega

/-- An instance of C22: the stack of `int * const * *`, two `*` on top of `const`. -/
theorem C22_print_pointers_takes_the_star_run_witness :
    print_pointers 5
        { curr := 5,
          stack := [⟨TOKEN_QUALIFIER, "*".toList⟩, ⟨TOKEN_QUALIFIER, "*".toList⟩] ++
            [⟨TOKEN_QUALIFIER, "const".toList⟩, ⟨TOKEN_QUALIFIER, "*".toList⟩,
              ⟨TOKEN_TYPE, "int".toList⟩],
          stdout := "x is a ".toList } token_uninit =
      some { curr := 5,
             stack := [⟨TOKEN_QUALIFIER, "const".toList⟩, ⟨TOKEN_QUALIFIER, "*".toList⟩,
               ⟨TOKEN_TYPE, "int".toList⟩],
             stdout := "x is a ".toList ++
               (List.replicate
                 [(⟨TOKEN_QUALIFIER, "*".toList⟩ : token), ⟨TOKEN_QUALIFIER, "*".toList⟩].length
                 "pointer to ".toList).flatten } ∧
    (∀ top below,
      [(⟨TOKEN_QUALIFIER, "const".toList⟩ : token), ⟨TOKEN_QUALIFIER, "*".toList⟩,
        ⟨TOKEN_TYPE, "int".toList⟩] = top :: below →
      stack_push below top = (0, top :: below)) :=
  C22_print_pointers_takes_the_star_run
    [⟨TOKEN_QUALIFIER, "*".toList⟩, ⟨TOKEN_QUALIFIER, "*".toList⟩]
    [⟨TOKEN_QUALIFIER, "const".toList⟩, ⟨TOKEN_QUALIFIER, "*".toList⟩,
      ⟨TOKEN_TYPE, "int".toList⟩] 5 5 "x is a ".toList token_uninit
    (by decide)
    (by
      intro top below h
      cases h
      decide)
    (by decide) (by decide)

/-! ## Array suffix followed by a function suffix -/

theorem handle_function_accept (chunks W : List (List Char)) (s : State) (fuel : Nat)
    (hW : ∀ i, i < W.length → chunks[s.curr + 1 + i]? = W[i]?)
    (hok : ∀ w ∈ W, classify_string (some w) ≠ TOKEN_FUNC_END ∧
      classify_string (some w) ≠ TOKEN_UNKNOWN)
    (hclose : chunks[s.curr + 1 + W.length]? = some ")".toList)
    (hfuel : W.length < fuel) :
    handle_function fuel chunks s =
      some (0, { curr := s.curr + W.length + 2, stack := s.stack,
                 stdout := s.stdout ++ "a function returning ".toList }) := by
  obtain ⟨k, rfl⟩ : ∃ k, fuel = (k + 1) + W.length := ⟨fuel - W.length - 1, by omega⟩
  rw [handle_function_scan chunks W s (k + 1) hW hok]
  have hidx : s.curr + W.length + 1 = s.curr + 1 + W.length := by omega
  rw [handle_function]
  simp only [hidx, hclose]
  rw [if_pos (by decide)]

/-- C21 (counterexample): in `x [ 3 ] ( )` the single declarator level consumes the
array suffix and then the function suffix, and both fragments are printed. -/
theorem C21_array_then_function_both_consumed :
    parse_declarator 5 ["x".toList, "[".toList, "3".toList, "]".toList, "(".toList, ")".toList]
        { curr := 0, stack := [], stdout := "x is a ".toList } =
      some (0, { curr := 6, stack := [],
                 stdout := "x is a array [3] of a function returning ".toList }) ∧
    main (enough_fuel ["x".toList, "[".toList, "3".toList, "]".toList, "(".toList, ")".toList])
        ["x".toList, "[".toList, "3".toList, "]".toList, "(".toList, ")".toList] =
      some { status := EXIT_SUCCESS,
             stdout := "x is a array [3] of a function returning \n".toList,
             stderr := [] } := by
  decide

/-- C21 (amended): in one call of the declarator parser the array suffix is tried
first and the word at the cursor is classified again after it; so when a sized array
suffix `[ N ]` has been consumed and a `(` follows it, with words `W` that are neither
`)` nor unknown and then `)`, the function suffix is consumed by the same call: the
cursor is moved past that `)` and "array [N] of " and "a function returning " have both
been written before the stack is looked at. -/
theorem C21_function_suffix_after_sized_array (chunks W : List (List Char)) (s : State)
    (N : List Char) (fuel : Nat)
    (hopen : chunks[s.curr + 1]? = some "[".toList)
    (hN : chunks[s.curr + 2]? = some N) (hd : N.all isdigit = true)
    (hclose : chunks[s.curr + 3]? = some "]".toList)
    (hparen : chunks[s.curr + 4]? = some "(".toList)
    (hW : ∀ i, i < W.length → chunks[s.curr + 5 + i]? = W[i]?)
    (hok : ∀ w ∈ W, classify_string (some w) ≠ TOKEN_FUNC_END ∧
      classify_string (some w) ≠ TOKEN_UNKNOWN)
    (hend : chunks[s.curr + 5 + W.length]? = some ")".toList)
    (hfuel : W.length < fuel) :
    parse_declarator (fuel + 1) chunks s =
      match print_pointers fuel
          { curr := s.curr + W.length + 6, stack := s.stack,
            stdout := s.stdout ++ "array [".toList ++ N ++ "] of ".toList ++
              "a function returning ".toList } token_uninit with
      | none => none
      | some s2 => parse_declarator_loop fuel chunks s2 token_uninit := by
  have harr := handle_array_sized chunks ⟨s.curr + 1, s.stack, s.stdout⟩ N hN hd hclose
  have hfun := handle_function_accept chunks W
    ⟨s.curr + 4, s.stack, s.stdout ++ "array [".toList ++ N ++ "] of ".toList⟩ fuel hW hok hend
    hfuel
  rw [parse_declarator_succ, declarator_suffixes, hopen, if_pos (by decide), harr]
  simp only
  rw [if_neg (by decide), hparen, if_pos (by decide), hfun]
  simp only
  rw [if_neg (by decide)]
  have hidx : s.curr + 4 + W.length + 2 = s.curr + W.length + 6 := by omega
  rw [hidx]

/-- An instance of the amended C21: `x [ 3 ] ( int )` from the identifier. -/
theorem C21_function_suffix_after_sized_array_witness :
    parse_declarator (2 + 1)
        ["x".toList, "[".toList, "3".toList, "]".toList, "(".toList, "int".toList,
          ")".toList]
        { curr := 0, stack := [], stdout := "x is a ".toList } =
      match print_pointers 2
          { curr := 0 + ["int".toList].length + 6, stack := [],
            stdout := "x is a ".toList ++ "array [".toList ++ "3".toList ++ "] of ".toList ++
              "a function returning ".toList } token_uninit with
      | none => none
      | some s2 =>
        parse_declarator_loop 2
          ["x".toList, "[".toList, "3".toList, "]".toList, "(".toList, "int".toList,
            ")".toList] s2 token_uninit :=
  C21_function_suffix_after_sized_array
    ["x".toList, "[".toList, "3".toList, "]".toList, "(".toList, "int".toList, ")".toList]
    ["int".toList] { curr := 0, stack := [], stdout := "x is a ".toList } "3".toList 2
    (by decide) (by decide) (by decide) (by decide) (by decide) (by decide) (by decide)
    (by decide) (by decide)

/-! ## The invariant of the stack -/

theorem good_token_of_pushed (w : List Char) (h : is_pushed w) : good_token (word_token w) := by
  rw [word_token_of_pushed w h]
  obtain ⟨h1, h2⟩ := h
  refine ⟨?_, rfl⟩
  show classify_string (some w) ∈ pushed_kinds
  cases hc : classify_string (some w) with
  | TOKEN_IDENTIFIER => exact absurd hc h1
  | TOKEN_UNKNOWN => exact absurd hc h2
  | TOKEN_TYPE => decide
  | TOKEN_QUALIFIER => decide
  | TOKEN_ARRAY_BEGIN => decide
  | TOKEN_ARRAY_END => decide
  | TOKEN_FUNC_BEGIN => decide
  | TOKEN_FUNC_END => decide

theorem good_stack_nil : good_stack [] :=
  ⟨fun t h => absurd h (List.not_mem_nil t), Nat.zero_le _⟩

theorem good_stack_tail (top : token) (rest : token_stack) (h : good_stack (top :: rest)) :
    good_stack rest ∧ good_token top ∧ rest.length < MAXTOKENLEN := by
  obtain ⟨h1, h2⟩ := h
  simp only [List.length_cons] at h2
  exact ⟨⟨fun t ht => h1 t (List.mem_cons_of_mem _ ht), by omega⟩,
    h1 top (List.mem_cons_self _ _), by omega⟩

theorem good_stack_cons (top : token) (rest : token_stack) (h : good_stack rest)
    (ht : good_token top) (hlen : rest.length < MAXTOKENLEN) : good_stack (top :: rest) := by
  obtain ⟨h1, _⟩ := h
  refine ⟨?_, by simp only [List.length_cons]; omega⟩
  intro t hmem
  rcases List.mem_cons.1 hmem with rfl | hm
  · exact ht
  · exact h1 t hm

theorem good_stack_push (stack : token_stack) (t : token) (h : good_stack stack)
    (ht : good_token t) : good_stack (stack_push stack t).2 := by
  unfold stack_push
  split_ifs with hfull
  · exact h
  · exact good_stack_cons t stack h ht (by have := h.2; omega)

theorem good_stack_pop (stack : token_stack) (el : token) (h : good_stack stack) :
    good_stack (stack_pop stack el).2.1 ∧
      ((stack_pop stack el).1 = 0 → good_token (stack_pop stack el).2.2) := by
  cases stack with
  | nil => exact ⟨good_stack_nil, fun h0 => absurd h0 (by simp [stack_pop])⟩
  | cons top rest =>
    obtain ⟨h1, h2, _⟩ := good_stack_tail top rest h
    exact ⟨h1, fun _ => h2⟩

theorem find_identifier_good (fuel : Nat) :
    ∀ (chunks : List (List Char)) (s : State) (r : Int) (s2 : State),
      good_stack s.stack → find_identifier fuel chunks s = some (.returned r s2) →
      good_stack s2.stack := by
  induction fuel with
  | zero => intro chunks s r s2 _ h; simp [find_identifier] at h
  | succ n ih =>
    intro chunks s r s2 hs h
    cases hw : chunks[s.curr]? with
    | none =>
      rw [find_identifier_end _ _ _ hw] at h
      cases h
      exact hs
    | some w =>
      rcases classify_cases w with hc | hc | hc
      · rw [find_identifier_found _ _ _ w hw hc] at h
        cases h
        exact hs
      · rw [find_identifier_unknown _ _ _ w hw hc] at h
        cases h
      · by_cases hsz : s.stack.length < MAXTOKENLEN
        · rw [find_identifier_push _ _ _ w hw hc hsz] at h
          exact ih _ _ _ _ (good_stack_cons _ _ hs (good_token_of_pushed w hc) hsz) h
        · have hfull : s.stack.length = MAXTOKENLEN := by have := hs.2; omega
          rw [find_identifier_full _ _ _ w hw hc hfull] at h
          cases h

theorem print_pointers_loop_good (fuel : Nat) :
    ∀ (s : State) (t : token) (s2 : State),
      good_stack (t :: s.stack) → print_pointers_loop fuel s t = some s2 →
      good_stack s2.stack := by
  induction fuel with
  | zero => intro s t s2 _ h; simp [print_pointers_loop] at h
  | succ n ih =>
    intro s t s2 hs h
    obtain ⟨hrest, ht, hlen⟩ := good_stack_tail t s.stack hs
    rw [print_pointers_loop] at h
    split_ifs at h with h1
    · cases hst : s.stack with
      | nil =>
        simp only [hst, stack_pop] at h
        rw [if_pos trivial] at h
        cases h
        exact good_stack_nil
      | cons top rest =>
        simp only [hst, stack_pop] at h
        rw [if_neg (by decide)] at h
        exact ih _ _ _ (by rw [← hst]; exact hrest) h
    · cases h
      have hpush := stack_push_ok s.stack t hlen
      show good_stack (stack_push s.stack t).2
      rw [hpush]
      exact hs

theorem print_pointers_good (fuel : Nat) (s : State) (t : token) (s2 : State)
    (hs : good_stack s.stack) (h : print_pointers fuel s t = some s2) :
    good_stack s2.stack := by
  unfold print_pointers at h
  cases hst : s.stack with
  | nil =>
    simp only [hst, stack_pop] at h
    rw [if_pos trivial] at h
    cases h
    exact hs
  | cons top rest =>
    simp only [hst, stack_pop] at h
    rw [if_neg (by decide)] at h
    exact print_pointers_loop_good fuel _ _ _ (by rw [← hst]; exact hs) h

theorem parse_declarator_good_both (fuel : Nat) :
    (∀ (chunks : List (List Char)) (s : State) (r : Int × State),
      good_stack s.stack → parse_declarator fuel chunks s = some r → good_stack r.2.stack) ∧
    (∀ (chunks : List (List Char)) (s : State) (t : token) (r : Int × State),
      good_stack s.stack → parse_declarator_loop fuel chunks s t = some r →
      good_stack r.2.stack) := by
  induction fuel with
  | zero =>
    constructor
    · intro chunks s r _ h; simp [parse_declarator] at h
    · intro chunks s t r _ h; simp [parse_declarator_loop] at h
  | succ n ih =>
    obtain ⟨ihd, ihl⟩ := ih
    constructor
    · intro chunks s r hs h
      rw [parse_declarator_succ] at h
      cases hsuf : declarator_suffixes n chunks s with
      | none => simp [hsuf] at h
      | some x =>
        have hst := declarator_suffixes_stack _ _ _ _ hsuf
        rw [hsuf] at h
        obtain ⟨r1, s1⟩ := x
        simp only at h hst
        have hs1 : good_stack s1.stack := by rw [hst]; exact hs
        split_ifs at h with h1
        · cases h
          exact hs1
        · cases hpp : print_pointers n s1 token_uninit with
          | none => simp [hpp] at h
          | some s2 =>
            rw [hpp] at h
            exact ihl _ _ _ _ (print_pointers_good _ _ _ _ hs1 hpp) h
    · intro chunks s t r hs h
      rw [parse_declarator_loop_succ] at h
      cases hst : s.stack with
      | nil =>
        simp only [hst] at h
        cases h
        exact hs
      | cons top rest =>
        simp only [hst] at h
        have hrest : good_stack rest := (good_stack_tail top rest (by rw [← hst]; exact hs)).1
        split_ifs at h with h1 h2
        · cases h
          exact hrest
        · cases hd : parse_declarator n chunks { s with stack := rest } with
          | none => simp [hd] at h
          | some x =>
            rw [hd] at h
            exact ihl _ _ _ _ (ihd _ _ _ hrest hd) h
        · exact ihl _ _ _ _ hrest h

/-! ## The cursor -/

theorem present_lt (chunks : List (List Char)) (i : Nat) (w : List Char)
    (h : chunks[i]? = some w) : i < chunks.length := by
  by_contra hge
  rw [List.getElem?_eq_none (by omega)] at h
  cases h

theorem classified_lt (chunks : List (List Char)) (i : Nat)
    (h : classify_string chunks[i]? ≠ TOKEN_UNKNOWN) : i < chunks.length := by
  by_contra hge
  rw [List.getElem?_eq_none (by omega)] at h
  exact h rfl

theorem find_identifier_curr (fuel : Nat) :
    ∀ (chunks : List (List Char)) (s : State) (r : Int) (s2 : State),
      s.curr ≤ chunks.length → find_identifier fuel chunks s = some (.returned r s2) →
      s.curr ≤ s2.curr ∧ s2.curr ≤ chunks.length := by
  induction fuel with
  | zero => intro chunks s r s2 _ h; simp [find_identifier] at h
  | succ n ih =>
    intro chunks s r s2 hs h
    cases hw : chunks[s.curr]? with
    | none =>
      rw [find_identifier_end _ _ _ hw] at h
      cases h
      exact ⟨Nat.le_refl _, hs⟩
    | some w =>
      have hlt := present_lt chunks s.curr w hw
      rcases classify_cases w with hc | hc | hc
      · rw [find_identifier_found _ _ _ w hw hc] at h
        cases h
        exact ⟨Nat.le_refl _, hs⟩
      · rw [find_identifier_unknown _ _ _ w hw hc] at h
        cases h
      · have hstep : find_identifier (n + 1) chunks s =
            find_identifier n chunks
              { s with stack := word_token w :: s.stack, curr := s.curr + 1 } ∨
            find_identifier (n + 1) chunks s =
              some (.exited (pexit "stack_push".toList s.stdout)) := by
          obtain ⟨h1, h2⟩ := hc
          rw [find_identifier]
          simp only [hw, word_token]
          by_cases hfull : s.stack.length = MAXTOKENLEN
          · right
            cases hcl : classify_string (some w) <;> simp_all [stack_push]
          · left
            cases hcl : classify_string (some w) <;> simp_all [stack_push]
        rcases hstep with hstep | hstep
        · rw [hstep] at h
          have := ih chunks _ r s2 (by simp only; omega) h
          simp only at this
          omega
        · rw [hstep] at h
          cases h

theorem handle_array_curr (chunks : List (List Char)) (s : State)
    (hs : s.curr < chunks.length) :
    s.curr < (handle_array chunks s).2.curr ∧
      (handle_array chunks s).2.curr ≤ chunks.length := by
  unfold handle_array
  cases h1 : chunks[s.curr + 1]? with
  | none => exact ⟨Nat.lt_succ_self _, hs⟩
  | some size =>
    have hlt1 := present_lt chunks _ size h1
    simp only
    split_ifs with h2 h3 h4
    · exact ⟨Nat.lt_succ_self _, hs⟩
    · exact ⟨Nat.lt_succ_self _, hs⟩
    · exact ⟨by simp only; omega, hlt1⟩
    · have hlt2 : s.curr + 2 < chunks.length := by
        apply classified_lt
        intro hu
        rw [ne_eq, not_not] at h4
        rw [h4] at hu
        cases hu
      exact ⟨by simp only; omega, hlt2⟩

theorem handle_function_curr (fuel : Nat) :
    ∀ (chunks : List (List Char)) (s : State) (r : Int × State),
      s.curr < chunks.length → handle_function fuel chunks s = some r →
      s.curr < r.2.curr ∧ r.2.curr ≤ chunks.length := by
  induction fuel with
  | zero => intro chunks s r _ h; simp [handle_function] at h
  | succ n ih =>
    intro chunks s r hs h
    rw [handle_function] at h
    split_ifs at h with h1 h2
    · cases h
      have hlt : s.curr + 1 < chunks.length := by
        apply classified_lt
        rw [h1]
        decide
      exact ⟨by simp only; omega, hlt⟩
    · cases h
      exact ⟨Nat.lt_succ_self _, hs⟩
    · have hlt : s.curr + 1 < chunks.length := classified_lt chunks _ h2
      have := ih chunks _ r (by simp only; exact hlt) h
      simp only at this
      omega

theorem declarator_suffixes_curr (fuel : Nat) (chunks : List (List Char)) (s : State)
    (r : Int × State) (hs : s.curr < chunks.length)
    (h : declarator_suffixes fuel chunks s = some r) :
    s.curr < r.2.curr ∧ r.2.curr ≤ chunks.length := by
  unfold declarator_suffixes at h
  split at h
  rename_i ra s1 heq
  have hs1 : s.curr < s1.curr ∧ s1.curr ≤ chunks.length := by
    split_ifs at heq with hopen
    · have hlt : s.curr + 1 < chunks.length := by
        apply classified_lt
        rw [hopen]
        decide
      have := handle_array_curr chunks { s with curr := s.curr + 1 } hlt
      rw [heq] at this
      simp only at this
      omega
    · cases heq
      exact ⟨Nat.lt_succ_self _, hs⟩
  split_ifs at h with h1 h2
  · cases h
    exact hs1
  · have hlt : s1.curr < chunks.length := by
      apply classified_lt
      rw [h2]
      decide
    have := handle_function_curr fuel chunks s1 r hlt h
    omega
  · cases h
    exact hs1

theorem print_pointers_loop_curr (fuel : Nat) :
    ∀ (s : State) (t : token) (s2 : State),
      print_pointers_loop fuel s t = some s2 → s2.curr = s.curr := by
  induction fuel with
  | zero => intro s t s2 h; simp [print_pointers_loop] at h
  | succ n ih =>
    intro s t s2 h
    rw [print_pointers_loop] at h
    split_ifs at h with h1
    · cases hst : s.stack with
      | nil =>
        simp only [hst, stack_pop] at h
        rw [if_pos trivial] at h
        cases h
        rfl
      | cons top rest =>
        simp only [hst, stack_pop] at h
        rw [if_neg (by decide)] at h
        have := ih _ _ _ h
        exact this
    · cases h
      rfl

theorem print_pointers_curr (fuel : Nat) (s : State) (t : token) (s2 : State)
    (h : print_pointers fuel s t = some s2) : s2.curr = s.curr := by
  unfold print_pointers at h
  cases hst : s.stack with
  | nil =>
    simp only [hst, stack_pop] at h
    rw [if_pos trivial] at h
    cases h
    rfl
  | cons top rest =>
    simp only [hst, stack_pop] at h
    rw [if_neg (by decide)] at h
    have := print_pointers_loop_curr fuel _ _ _ h
    exact this

theorem parse_declarator_curr_both (fuel : Nat) :
    (∀ (chunks : List (List Char)) (s : State) (r : Int × State),
      s.curr < chunks.length → parse_declarator fuel chunks s = some r →
      s.curr < r.2.curr ∧ r.2.curr ≤ chunks.length) ∧
    (∀ (chunks : List (List Char)) (s : State) (t : token) (r : Int × State),
      s.curr ≤ chunks.length → parse_declarator_loop fuel chunks s t = some r →
      s.curr ≤ r.2.curr ∧ r.2.curr ≤ chunks.length) := by
  induction fuel with
  | zero =>
    constructor
    · intro chunks s r _ h; simp [parse_declarator] at h
    · intro chunks s t r _ h; simp [parse_declarator_loop] at h
  | succ n ih =>
    obtain ⟨ihd, ihl⟩ := ih
    constructor
    · intro chunks s r hs h
      rw [parse_declarator_succ] at h
      cases hsuf : declarator_suffixes n chunks s with
      | none => simp [hsuf] at h
      | some x =>
        have hc1 := declarator_suffixes_curr _ _ _ _ hs hsuf
        rw [hsuf] at h
        obtain ⟨r1, s1⟩ := x
        simp only at h hc1
        split_ifs at h with h1
        · cases h
          exact hc1
        · cases hpp : print_pointers n s1 token_uninit with
          | none => simp [hpp] at h
          | some s2 =>
            rw [hpp] at h
            have hc2 := print_pointers_curr _ _ _ _ hpp
            have := ihl _ _ _ _ (by rw [hc2]; exact hc1.2) h
            omega
    · intro chunks s t r hs h
      rw [parse_declarator_loop_succ] at h
      cases hst : s.stack with
      | nil =>
        simp only [hst] at h
        cases h
        exact ⟨Nat.le_refl _, hs⟩
      | cons top rest =>
        simp only [hst] at h
        split_ifs at h with h1 h2
        · cases h
          exact ⟨Nat.le_refl _, hs⟩
        · have hlt : s.curr < chunks.length := by
            cases hw : chunks[s.curr]? with
            | none => rw [hw] at h2; exact absurd rfl h2
            | some w => exact present_lt chunks _ w hw
          cases hd : parse_declarator n chunks { s with stack := rest } with
          | none => simp [hd] at h
          | some x =>
            rw [hd] at h
            have hc1 := ihd _ _ _ (by simp only; exact hlt) hd
            simp only at hc1
            have := ihl _ _ _ _ hc1.2 h
            omega
        · have := ihl _ _ _ _ (show (State.mk s.curr rest (print_token top s.stdout)).curr ≤
              chunks.length from hs) h
          exact this

/-! ## The invariants along a whole run -/

/-- With enough fuel the search returns, and when it returns 0 the cursor is on a word,
the stack is no larger than the cursor and the declarator parser returns too. -/
theorem main_run_states (args : List (List Char)) (fuel : Nat)
    (hfuel : enough_fuel args ≤ fuel) :
    ∃ c, find_identifier fuel args { curr := 0, stack := stack_init, stdout := [] } = some c ∧
      ∀ s1, c = .returned 0 s1 →
        s1.curr < args.length ∧ ∃ r2, parse_declarator fuel args s1 = some r2 := by
  unfold enough_fuel at hfuel
  obtain ⟨c, hc, hcase⟩ := find_identifier_total fuel args
    { curr := 0, stack := stack_init, stdout := [] } (by simp [stack_init])
    (by omega) (by simp only; omega)
  refine ⟨c, hc, ?_⟩
  intro s1 hs1
  rcases hcase with ⟨s2, h1, _⟩ | ⟨s2, h1, h2, h3⟩ | ⟨x, _, h1⟩ | h1
  · rw [h1] at hs1
    cases hs1
  · rw [h1] at hs1
    cases hs1
    simp only [stack_init, List.length_nil] at h3
    obtain ⟨r2, hr2, _⟩ := (parse_declarator_total_both fuel).1 args s1 (by omega)
    exact ⟨h2, r2, hr2⟩
  · rw [h1] at hs1
    cases hs1
  · rw [h1] at hs1
    cases hs1

/-- C23: the stack invariant (every token has one of the six pushed kinds, equal to
the classification of its text, and the size is at most 128) holds of the empty stack
the run starts with and is kept by every operation on the stack and by every function
of the parser, whatever the state it is called in: `stack_pop`, the pushes of
`find_identifier`, the search itself, `handle_array`, `handle_function`,
`print_pointers` with its push-back, `parse_declarator` and its drain loop at every
level. With enough fuel the search and the parser return, so the states they leave in a
run of `main` satisfy it. -/
theorem C23_stack_invariant_kept (chunks : List (List Char)) (s : State) (fuel : Nat)
    (hs : good_stack s.stack) :
    good_stack stack_init ∧
    (∀ el : token, good_stack (stack_pop s.stack el).2.1 ∧
      ((stack_pop s.stack el).1 = 0 → good_token (stack_pop s.stack el).2.2)) ∧
    (∀ w : List Char, is_pushed w → good_stack (stack_push s.stack (word_token w)).2) ∧
    (∀ (r : Int) (s2 : State), find_identifier fuel chunks s = some (.returned r s2) →
      good_stack s2.stack) ∧
    good_stack (handle_array chunks s).2.stack ∧
    (∀ r, handle_function fuel chunks s = some r → good_stack r.2.stack) ∧
    (∀ t s2, print_pointers fuel s t = some s2 → good_stack s2.stack) ∧
    (∀ r, parse_declarator fuel chunks s = some r → good_stack r.2.stack) ∧
    (∀ t r, parse_declarator_loop fuel chunks s t = some r → good_stack r.2.stack) ∧
    (enough_fuel chunks ≤ fuel →
      ∃ c, find_identifier fuel chunks { curr := 0, stack := stack_init, stdout := [] } =
          some c ∧
        (∀ r s1, c = .returned r s1 → good_stack s1.stack) ∧
        (∀ s1, c = .returned 0 s1 →
          ∃ r2, parse_declarator fuel chunks s1 = some r2 ∧ good_stack r2.2.stack)) := by
  refine ⟨good_stack_nil, fun el => good_stack_pop s.stack el hs,
    fun w hw => good_stack_push s.stack _ hs (good_token_of_pushed w hw),
    fun r s2 h => find_identifier_good fuel chunks s r s2 hs h, ?_, ?_,
    fun t s2 h => print_pointers_good fuel s t s2 hs h,
    fun r h => (parse_declarator_good_both fuel).1 chunks s r hs h,
    fun t r h => (parse_declarator_good_both fuel).2 chunks s t r hs h, ?_⟩
  · rw [handle_array_stack]
    exact hs
  · intro r h
    rw [handle_function_stack fuel chunks s r h]
    exact hs
  · intro hfuel
    obtain ⟨c, hc, hrun⟩ := main_run_states chunks fuel hfuel
    refine ⟨c, hc, ?_, ?_⟩
    · intro r s1 h1
      rw [h1] at hc
      exact find_identifier_good fuel chunks _ r s1 good_stack_nil hc
    · intro s1 h1
      obtain ⟨_, r2, hr2⟩ := hrun s1 h1
      rw [h1] at hc
      have hg := find_identifier_good fuel chunks _ 0 s1 good_stack_nil hc
      exact ⟨r2, hr2, (parse_declarator_good_both fuel).1 chunks s1 r2 hg hr2⟩

/-- An instance of C23: the run on `int ( * x ) ( )`, and the state with the stack of
`int ( *` at the identifier. -/
theorem C23_stack_invariant_kept_witness :
    ∃ r, parse_declarator 24
        ["int".toList, "(".toList, "*".toList, "x".toList, ")".toList, "(".toList,
          ")".toList]
        { curr := 3,
          stack := [⟨TOKEN_QUALIFIER, "*".toList⟩, ⟨TOKEN_FUNC_BEGIN, "(".toList⟩,
            ⟨TOKEN_TYPE, "int".toList⟩],
          stdout := "x is a ".toList } = some r ∧ good_stack r.2.stack :=
  ⟨_, by decide,
    (C23_stack_invariant_kept
      ["int".toList, "(".toList, "*".toList, "x".toList, ")".toList, "(".toList, ")".toList]
      { curr := 3,
        stack := [⟨TOKEN_QUALIFIER, "*".toList⟩, ⟨TOKEN_FUNC_BEGIN, "(".toList⟩,
          ⟨TOKEN_TYPE, "int".toList⟩],
        stdout := "x is a ".toList } 24 (by decide)).2.2.2.2.2.2.2.1
      (0, { curr := 7, stack := [],
            stdout := "x is a pointer to a function returning int ".toList })
      (by decide)⟩

/-- C24: on an input of `n` words the cursor never goes back and never passes `n`, the
position of the end-of-input sentinel. Each function that steps the cursor is entered
with the cursor on a present word (`handle_array`, `handle_function`,
`parse_declarator`) or within the input (`find_identifier`, the drain loop), and it
leaves the cursor no lower than it found it and at most at `n`, at every level and also
when the status of a nested call was dropped. With enough fuel the search and the
parser return, so this holds along the whole run of `main`. -/
theorem C24_cursor_stays_in_bounds (args : List (List Char)) (fuel : Nat)
    (hfuel : enough_fuel args ≤ fuel) :
    (∃ c, find_identifier fuel args { curr := 0, stack := stack_init, stdout := [] } =
        some c ∧
      (∀ r s1, c = .returned r s1 → s1.curr ≤ args.length) ∧
      (∀ s1, c = .returned 0 s1 → s1.curr < args.length ∧
        ∃ r2, parse_declarator fuel args s1 = some r2 ∧
          s1.curr < r2.2.curr ∧ r2.2.curr ≤ args.length)) ∧
    (∀ (f : Nat) (s : State),
      (s.curr ≤ args.length →
        ∀ r s2, find_identifier f args s = some (.returned r s2) →
          s.curr ≤ s2.curr ∧ s2.curr ≤ args.length) ∧
      (s.curr < args.length →
        s.curr < (handle_array args s).2.curr ∧
          (handle_array args s).2.curr ≤ args.length) ∧
      (s.curr < args.length →
        ∀ r, handle_function f args s = some r →
          s.curr < r.2.curr ∧ r.2.curr ≤ args.length) ∧
      (∀ t s2, print_pointers f s t = some s2 → s2.curr = s.curr) ∧
      (s.curr < args.length →
        ∀ r, parse_declarator f args s = some r →
          s.curr < r.2.curr ∧ r.2.curr ≤ args.length) ∧
      (s.curr ≤ args.length →
        ∀ t r, parse_declarator_loop f args s t = some r →
          s.curr ≤ r.2.curr ∧ r.2.curr ≤ args.length)) := by
  constructor
  · obtain ⟨c, hc, hrun⟩ := main_run_states args fuel hfuel
    refine ⟨c, hc, ?_, ?_⟩
    · intro r s1 h1
      rw [h1] at hc
      exact (find_identifier_curr fuel args _ r s1 (Nat.zero_le _) hc).2
    · intro s1 h1
      obtain ⟨hlt, r2, hr2⟩ := hrun s1 h1
      exact ⟨hlt, r2, hr2, (parse_declarator_curr_both fuel).1 args s1 r2 hlt hr2⟩
  · intro f s
    exact ⟨fun hs r s2 h => find_identifier_curr f args s r s2 hs h,
      fun hs => handle_array_curr args s hs,
      fun hs r h => handle_function_curr f args s r hs h,
      fun t s2 h => print_pointers_curr f s t s2 h,
      fun hs r h => (parse_declarator_curr_both f).1 args s r hs h,
      fun hs t r h => (parse_declarator_curr_both f).2 args s t r hs h⟩

/-- An instance of C24: the run on `int ( * x ) [ abc ]`, where the nested level fails. -/
theorem C24_cursor_stays_in_bounds_witness :
    ∃ c, find_identifier 27
        ["int".toList, "(".toList, "*".toList, "x".toList, ")".toList, "[".toList,
          "abc".toList, "]".toList]
        { curr := 0, stack := stack_init, stdout := [] } = some c ∧
      (∀ r s1, c = .returned r s1 →
        s1.curr ≤ ["int".toList, "(".toList, "*".toList, "x".toList, ")".toList,
          "[".toList, "abc".toList, "]".toList].length) ∧
      (∀ s1, c = .returned 0 s1 →
        s1.curr < ["int".toList, "(".toList, "*".toList, "x".toList, ")".toList,
          "[".toList, "abc".toList, "]".toList].length ∧
        ∃ r2, parse_declarator 27
            ["int".toList, "(".toList, "*".toList, "x".toList, ")".toList, "[".toList,
              "abc".toList, "]".toList] s1 = some r2 ∧
          s1.curr < r2.2.curr ∧
          r2.2.curr ≤ ["int".toList, "(".toList, "*".toList, "x".toList, ")".toList,
            "[".toList, "abc".toList, "]".toList].length) :=
  (C24_cursor_stays_in_bounds
    ["int".toList, "(".toList, "*".toList, "x".toList, ")".toList, "[".toList,
      "abc".toList, "]".toList] 27 (by decide)).1

end Cdecl
